import Mathlib

/-!
# Blame-build Jenkins plugin: the polling cycle of `server/plugin.go`

A shallow embedding of `checkJenkinsJob` and `GetLast3Commiters`.

* The Jenkins and GitHub clients are external; one cycle sees them through a record of
  responses (`Jenkins`, `GitHub`), a failed call being `Except.error`.
* The key-value store, the posts handed to `CreatePost` and the sequence of Jenkins calls
  made so far are threaded through the cycle as a `World`.
* Build numbers are `int64` in the client; `int(...)` is the identity on 64-bit
  platforms and no arithmetic is done on them, so they are integers here.
-/

namespace BlameBuild

/-! ## Go runtime helpers -/

/-- ASCII digit of `d` (for `d < 10`). -/
def digitChar (d : Nat) : Char := Char.ofNat (48 + d)

/-- Decimal digits of an unsigned value, most significant first, pushed in front of `acc`
(`strconv.formatBits` in base 10); `fuel` bounds the number of digits. -/
def formatBits : Nat → Nat → List Char → List Char
  | 0, _, acc => acc
  | fuel + 1, n, acc =>
    if n < 10 then digitChar n :: acc
    else formatBits fuel (n / 10) (digitChar (n % 10) :: acc)

/-- Decimal digits of `n`. -/
def formatUint (n : Nat) : List Char := formatBits (n + 1) n []

/-- Go `strconv.Itoa`: decimal text of an integer, with a leading `-` when negative. -/
def Itoa (i : Int) : String :=
  if i < 0 then String.mk ('-' :: formatUint i.natAbs) else String.mk (formatUint i.toNat)

/-- Value of a run of decimal digits. -/
def parseDigits (cs : List Char) : Nat :=
  cs.foldl (fun acc c => acc * 10 + (c.toNat - 48)) 0

/-- Decimal-string decode (the inverse of `Itoa` on its image). -/
def Atoi (s : String) : Int :=
  match s.data with
  | [] => 0
  | c :: ds => if c = '-' then - (parseDigits ds : Int) else (parseDigits (c :: ds) : Int)

/-- Go `strings.Join`. -/
def stringsJoin : List String → String → String
  | [], _ => ""
  | [a], _ => a
  | a :: b :: rest, sep => a ++ sep ++ stringsJoin (b :: rest) sep

/-- Pieces of a character list between occurrences of `sep`. -/
def splitChars (sep : Char) : List Char → List (List Char)
  | [] => [[]]
  | c :: cs =>
    if c = sep then [] :: splitChars sep cs
    else
      match splitChars sep cs with
      | [] => [[c]]
      | piece :: pieces => (c :: piece) :: pieces

/-- Go `strings.Split` with a one-character separator. -/
def stringsSplit (s : String) (sep : Char) : List String :=
  (splitChars sep s.data).map String.mk

/-! ## Constants (lines 21-25) -/

def JENKINS_LASTBUILD_KEY : String := "_JenkinsLastBuild"

def BLAME_USERNAME : String := "Burnning Jenkins"

def BLAME_ICON_URL : String :=
  "https://raw.githubusercontent.com/jenkins-infra/jenkins.io/master/content/images/logos/fire/fire.png"

/-! ## Data seen through the external clients -/

/-- One case of a test suite (`suiteCase.Name`, `suiteCase.Status`). -/
structure TestCase where
  Name : String
  Status : String
deriving DecidableEq, Repr

/-- One suite of a test report (`suite.Cases`). -/
structure TestSuite where
  Cases : List TestCase
deriving DecidableEq, Repr

/-- The test report of a build (`testResult.FailCount`, `.PassCount`, `.Suites`). -/
structure TestResult where
  FailCount : Int
  PassCount : Int
  Suites : List TestSuite
deriving DecidableEq, Repr

/-- An entry of `GetAllBuildIds` (`buildID.Number`). -/
structure JobBuild where
  Number : Int
  URL : String
deriving DecidableEq, Repr

/-- A build handle returned by `GetBuild` or `GetLastBuild`, with what its methods answer:
`GetBuildNumber`, `GetUrl`, `IsRunning`, `IsGood`, `GetResultSet`. -/
structure Build where
  Number : Int
  Url : String
  IsRunning : Bool
  IsGood : Bool
  ResultSet : Except String TestResult

/-- Modelled from the spec: the commit record of the source-control client, whose type
declaration is outside the repository; `CommitInfo` with `authorLogin`, `sha`, `htmlUrl`
(`commit.Author.GetLogin()`, `*commit.SHA`, `commit.GetHTMLURL()`). -/
structure RepositoryCommit where
  AuthorLogin : String
  SHA : String
  HTMLURL : String
deriving DecidableEq, Repr

/-- Responses of the Jenkins client during one cycle. -/
structure Jenkins where
  Init : Except String Unit
  GetJob : Except String Unit
  GetAllBuildIds : Except String (List JobBuild)
  GetBuild : Int → Except String Build
  GetLastBuild : Except String Build

/-- Responses of the GitHub client: `client.Repositories.ListCommits(ctx, owner, repo, nil)`. -/
structure GitHub where
  ListCommits : String → String → Except String (List RepositoryCommit)

/-- The fields of the plugin and of its configuration that the cycle reads. -/
structure Plugin where
  BotUserID : String
  ChannelID : String
  GitHubRepositories : String
  jenkins : Jenkins
  github : GitHub

/-- A `model.Post` as handed to `CreatePost`; `Props` is empty when the field is not set. -/
structure Post where
  UserId : String
  ChannelId : String
  Message : String
  Props : List (String × String)
deriving DecidableEq, Repr

/-- Calls made on the Jenkins client. -/
inductive Call where
  | GetLastBuild
  | GetAllBuildIds
  | GetBuild (number : Int)
  | GetResultSet
deriving DecidableEq, Repr

/-- What a cycle can change or leave behind: the plugin key-value store, the posts handed
to `CreatePost` (oldest first) and the Jenkins calls made (oldest first). -/
structure World where
  kv : String → Option String
  posts : List Post
  calls : List Call

/-- Go `p.API.KVSet`. -/
def World.KVSet (w : World) (key value : String) : World :=
  { w with kv := fun k => if k = key then some value else w.kv k }

/-- Go `p.API.KVGet`. -/
def World.KVGet (w : World) (key : String) : Option String := w.kv key

/-- Go `p.API.CreatePost`. -/
def World.CreatePost (w : World) (post : Post) : World :=
  { w with posts := w.posts ++ [post] }

/-- Record a call on the Jenkins client. -/
def World.call (w : World) (c : Call) : World :=
  { w with calls := w.calls ++ [c] }

/-- The persisted Marker: the value under `JENKINS_LASTBUILD_KEY`. -/
def World.marker (w : World) : Option String := w.KVGet JENKINS_LASTBUILD_KEY

/-- How a cycle ends: a normal return, `os.Exit(1)`, or a run-time panic (nil handle,
index out of range). -/
inductive Exit where
  | returned
  | osExit (code : Nat)
  | panicked
deriving DecidableEq, Repr

/-- Control flow out of a loop body: fall through with a value, return from the enclosing
function, or panic. -/
inductive Flow (α : Type) where
  | next (a : α)
  | ret (w : World)
  | panic (w : World)

/-- The world a loop leaves behind, however it ends. -/
def Flow.world {α : Type} : Flow (World × α) → World
  | .next (w, _) => w
  | .ret w => w
  | .panic w => w

/-! ## `checkJenkinsJob` (lines 93-233) -/

/-- The sampled builds: the first `min 3 n` identifiers of the list, in list order. -/
def sampled (buildIDs : List JobBuild) : List JobBuild := buildIDs.take 3

/-- Lines 128-133 and 180-185: `blame := true`, cleared by any good entry. -/
def blameOf (last3Builds : List Bool) : Bool :=
  last3Builds.foldl (fun blame isGood => if isGood then false else blame) true

/-- Lines 116-127: the bootstrap loop over `buildIDs`, from index `i`. The error of `GetBuild`
is discarded; on failure the handle is nil and `job.IsGood()` dereferences it. -/
def bootstrapLoop (p : Plugin) : Nat → List JobBuild → World → List Bool → Flow (World × List Bool)
  | _, [], w, last3Builds => .next (w, last3Builds)
  | i, buildID :: rest, w, last3Builds =>
    let w1 := if i = 0 then w.KVSet JENKINS_LASTBUILD_KEY (Itoa buildID.Number) else w
    let w2 := w1.call (.GetBuild buildID.Number)
    match p.jenkins.GetBuild buildID.Number with
    | .error _ => .panic w2
    | .ok job =>
      let last3Builds1 := last3Builds ++ [job.IsGood]
      if i = 2 then .next (w2, last3Builds1)
      else bootstrapLoop p (i + 1) rest w2 last3Builds1

/-- Lines 164-179: the steady-state loop over `buildIDs`, from index `i`. The error of
`GetBuild` is discarded; on failure the handle is nil and `job.IsRunning()` (first entry)
or `job.IsGood()` dereferences it. -/
def steadyLoop (p : Plugin) : Nat → List JobBuild → World → List Bool → Flow (World × List Bool)
  | _, [], w, last3Builds => .next (w, last3Builds)
  | i, buildID :: rest, w, last3Builds =>
    let w1 := w.call (.GetBuild buildID.Number)
    match p.jenkins.GetBuild buildID.Number with
    | .error _ => .panic w1
    | .ok job =>
      if i = 0 ∧ job.IsRunning = true then .ret w1
      else
        let w2 := if i = 0 then w1.KVSet JENKINS_LASTBUILD_KEY (Itoa buildID.Number) else w1
        let last3Builds1 := last3Builds ++ [job.IsGood]
        if i = 2 then .next (w2, last3Builds1)
        else steadyLoop p (i + 1) rest w2 last3Builds1

/-- Line 197: the statuses that get a line. -/
def isFailedStatus (status : String) : Bool :=
  status == "FAILED" || status == "REGRESSION" || status == "FAIL"

/-- Line 198. -/
def caseLine (suiteCase : TestCase) : String :=
  "**Test Name:** `" ++ suiteCase.Name ++ "` **Status:** `" ++ suiteCase.Status ++ "` "

/-- Line 193. -/
def headerLine (lastBuild : Build) : String :=
  "Will show the test result from the last build [#" ++ Itoa lastBuild.Number ++ "]("
    ++ lastBuild.Url ++ ")"

/-- Line 194. -/
def countLine (testResult : TestResult) : String :=
  "**FailCount:** `" ++ Itoa testResult.FailCount ++ "` **PassCount:** `"
    ++ Itoa testResult.PassCount ++ "`"

/-- Lines 187-203: the test lines of the latest build. -/
def msgTestResults (lastBuild : Build) : List String :=
  match lastBuild.ResultSet with
  | .error _ => []
  | .ok testResult =>
    if testResult.FailCount ≠ 0 then
      let msg0 : List String := [] ++ [headerLine lastBuild]
      let msg1 := msg0 ++ [countLine testResult]
      testResult.Suites.foldl
        (fun msg suite =>
          suite.Cases.foldl
            (fun msg suiteCase =>
              if isFailedStatus suiteCase.Status then msg ++ [caseLine suiteCase] else msg)
            msg)
        msg1
    else []

/-! ## `GetLast3Commiters` (lines 235-262) -/

/-- Result of a call that may panic. -/
inductive Outcome (α : Type) where
  | ok (a : α)
  | panic
deriving DecidableEq, Repr

/-- Line 254. -/
def commitLine (commit : RepositoryCommit) : String :=
  "1. @" ++ commit.AuthorLogin ++ " - `SHA`:[" ++ commit.SHA ++ "](" ++ commit.HTMLURL ++ ")"

/-- Lines 253-258: one line per commit, stopping after index 2. -/
def commitsLoop : Nat → List RepositoryCommit → List String → List String
  | _, [], msg => msg
  | i, commit :: rest, msg =>
    let msg1 := msg ++ [commitLine commit]
    if i = 2 then msg1 else commitsLoop (i + 1) rest msg1

/-- Line 249: the error value. -/
def commitsError (err : String) : String :=
  "Error when getting the list of commits. Please check if that exists, err=" ++ err

/-- Lines 245-260: the loop over the configured repositories. `repoSplit[1]` panics when the
entry has no `/`. The result is the message and the error (`none` for nil). -/
def reposLoop (p : Plugin) : List String → List String → Outcome (String × Option String)
  | [], msg => .ok (stringsJoin msg "\n", none)
  | repo :: rest, msg =>
    match stringsSplit repo '/' with
    | owner :: name :: _ =>
      match p.github.ListCommits owner name with
      | .error err => .ok ("", some (commitsError err))
      | .ok masterCommits =>
        let msg1 := msg ++ ["**Repository**: `" ++ repo ++ "`"]
        reposLoop p rest (commitsLoop 0 masterCommits msg1)
    | _ => .panic

/-- Lines 235-262. -/
def GetLast3Commiters (p : Plugin) : Outcome (String × Option String) :=
  let msg : List String := [] ++ ["**Last 3 Commiters for the following Repositories:**"]
  let repositories := stringsSplit p.GitHubRepositories ','
  reposLoop p repositories msg

/-- Line 139: the bootstrap post. -/
def bootstrapPost (p : Plugin) : Post :=
  { UserId := p.BotUserID, ChannelId := p.ChannelID,
    Message := "last build 3 build failed, please check", Props := [] }

/-- Lines 209-213: the identity override of the steady-state post. -/
def blameProps : List (String × String) :=
  [("override_username", BLAME_USERNAME), ("override_icon_url", BLAME_ICON_URL),
   ("from_webhook", "true")]

/-- Line 217. -/
def apology : String :=
  "The last three builds on Jenkins failed, please check the commits. I was unable to get the information for you. Sorry."

/-- Lines 205-230: the post step of the steady-state path. The message is first set to the
apology when commit resolution failed, then assigned again on both branches of the test-line
check. -/
def steadyPost (p : Plugin) (w : World) (testLines : List String) : World × Exit :=
  let post : Post :=
    { UserId := p.BotUserID, ChannelId := p.ChannelID, Message := "", Props := blameProps }
  match GetLast3Commiters p with
  | .panic => (w, .panicked)
  | .ok (commitsMsg, err) =>
    let post1 := if err.isSome then { post with Message := apology } else post
    let post2 :=
      if testLines.length > 0 then
        let testResultMsg := stringsJoin testLines "\n"
        { post1 with Message := testResultMsg ++ "\n\n" ++ commitsMsg }
      else { post1 with Message := commitsMsg }
    (w.CreatePost post2, .returned)

/-- Lines 110-147: the bootstrap path (`lastBuildToChecked == nil`). -/
def bootstrapPath (p : Plugin) (w : World) : World × Exit :=
  let w1 := w.call .GetAllBuildIds
  match p.jenkins.GetAllBuildIds with
  | .error _ => (w1, .osExit 1)
  | .ok buildIDs =>
    match bootstrapLoop p 0 buildIDs w1 [] with
    | .panic w2 => (w2, .panicked)
    | .ret w2 => (w2, .returned)
    | .next (w2, last3Builds) =>
      if blameOf last3Builds then (w2.CreatePost (bootstrapPost p), .returned)
      else (w2, .returned)

/-- Lines 150-230: the steady-state path, `lastBuildToChecked` being the stored Marker. -/
def steadyPath (p : Plugin) (w : World) (lastBuildToChecked : String) : World × Exit :=
  let w1 := w.call .GetLastBuild
  match p.jenkins.GetLastBuild with
  | .error _ => (w1, .returned)
  | .ok lastBuild =>
    if lastBuildToChecked = Itoa lastBuild.Number ∨ lastBuild.IsRunning = true then
      (w1, .returned)
    else
      let w2 := w1.call .GetAllBuildIds
      match p.jenkins.GetAllBuildIds with
      | .error _ => (w2, .returned)
      | .ok buildIDs =>
        match steadyLoop p 0 buildIDs w2 [] with
        | .panic w3 => (w3, .panicked)
        | .ret w3 => (w3, .returned)
        | .next (w3, last3Builds) =>
          let blame := blameOf last3Builds
          let w4 := w3.call .GetResultSet
          let testLines := msgTestResults lastBuild
          if blame then steadyPost p w4 testLines else (w4, .returned)

/-- Lines 93-233: one polling cycle. -/
def checkJenkinsJob (p : Plugin) (w : World) : World × Exit :=
  match p.jenkins.Init with
  | .error _ => (w, .returned)
  | .ok _ =>
    match p.jenkins.GetJob with
    | .error _ => (w, .returned)
    | .ok _ =>
      match w.KVGet JENKINS_LASTBUILD_KEY with
      | none => bootstrapPath p w
      | some lastBuildToChecked => steadyPath p w lastBuildToChecked

/-! ## Concrete scenarios -/

/-- A build handle with no test report. -/
def mkBuild (n : Int) (good running : Bool) : Build :=
  { Number := n, Url := "http://ci/job/" ++ Itoa n, IsRunning := running, IsGood := good,
    ResultSet := .error "no report" }

/-- An empty store, no post, no call. -/
def freshWorld : World := { kv := fun _ => none, posts := [], calls := [] }

/-- A world whose Marker is the text `v`. -/
def worldWithMarker (v : String) : World := freshWorld.KVSet JENKINS_LASTBUILD_KEY v

/-- A GitHub client that answers every repository with the same single commit. -/
def oneCommitGitHub : GitHub :=
  { ListCommits := fun _ _ => .ok [{ AuthorLogin := "dev", SHA := "abc", HTMLURL := "http://c" }] }

/-- A plugin around a Jenkins client. -/
def pluginOf (j : Jenkins) : Plugin :=
  { BotUserID := "bot", ChannelID := "town", GitHubRepositories := "org/app", jenkins := j,
    github := oneCommitGitHub }

/-- Builds 105, 104, 103, 102 listed, the latest being 105; outcomes given by `good`, none
running. -/
def fourBuilds (good : Int → Bool) : Jenkins :=
  { Init := .ok (), GetJob := .ok (),
    GetAllBuildIds := .ok [⟨105, ""⟩, ⟨104, ""⟩, ⟨103, ""⟩, ⟨102, ""⟩],
    GetBuild := fun n => .ok (mkBuild n (good n) false),
    GetLastBuild := .ok (mkBuild 105 (good 105) false) }

/-- Marker 105 with builds 106, 105, 104 listed: the latest-build fetch saw 106 finished,
the per-build fetch of 106 sees it running. -/
def runningNewest : Jenkins :=
  { Init := .ok (), GetJob := .ok (),
    GetAllBuildIds := .ok [⟨106, ""⟩, ⟨105, ""⟩, ⟨104, ""⟩],
    GetBuild := fun n => .ok (mkBuild n false (decide (n = 106))),
    GetLastBuild := .ok (mkBuild 106 false false) }

/-- A finished latest build 106 whose report has two failures among five cases in two
suites. -/
def reportedBuild : Build :=
  { Number := 106, Url := "http://ci/job/106", IsRunning := false, IsGood := false,
    ResultSet := .ok
      { FailCount := 2, PassCount := 3,
        Suites :=
          [ { Cases := [⟨"TestA", "FAILED"⟩, ⟨"TestB", "PASSED"⟩, ⟨"TestC", "failed"⟩] },
            { Cases := [⟨"TestD", "FIXED"⟩, ⟨"TestE", "REGRESSION"⟩] } ] } }

/-- A GitHub client whose every fetch fails. -/
def failingGitHub : GitHub := { ListCommits := fun _ _ => .error "unreachable" }

/-- A GitHub client with four commits in `org/app`, one in `org/lib`, and failing fetches
elsewhere. -/
def twoRepoGitHub : GitHub :=
  { ListCommits := fun owner name =>
      if owner = "org" ∧ name = "app" then
        .ok [⟨"ann", "a1", "u1"⟩, ⟨"bob", "b2", "u2"⟩, ⟨"cy", "c3", "u3"⟩, ⟨"dee", "d4", "u4"⟩]
      else if owner = "org" ∧ name = "lib" then .ok [⟨"eve", "e5", "u5"⟩]
      else .error "not found" }

/-- A plugin configured with the repositories of `cfg` on the GitHub client `g`, around the
four listed builds, all failed. -/
def pluginWith (cfg : String) (g : GitHub) : Plugin :=
  { BotUserID := "bot", ChannelID := "town", GitHubRepositories := cfg,
    jenkins := fourBuilds fun _ => false, github := g }

/-- The body as the specification words it: the joined test lines, a blank line and the
commit text when there are test lines, the commit text alone otherwise. -/
def specBody (testLines : List String) (commitMsg : String) : String :=
  if testLines ≠ [] then stringsJoin testLines "\n" ++ "\n\n" ++ commitMsg else commitMsg

/-- Builds 106, 105, 104 listed, the latest being 106, all finished and failed. -/
def finishedNewest : Jenkins :=
  { Init := .ok (), GetJob := .ok (),
    GetAllBuildIds := .ok [⟨106, ""⟩, ⟨105, ""⟩, ⟨104, ""⟩],
    GetBuild := fun n => .ok (mkBuild n false false),
    GetLastBuild := .ok (mkBuild 106 false false) }

/-- A job with no build at all: the list is empty and there is no latest build. -/
def emptyHistory : Jenkins :=
  { Init := .ok (), GetJob := .ok (),
    GetAllBuildIds := .ok [],
    GetBuild := fun _ => .error "no such build",
    GetLastBuild := .error "no build" }

/-- A job whose builds were renumbered: the latest build is 104 and the list is 104, 103,
both finished and failed. -/
def renumbered : Jenkins :=
  { Init := .ok (), GetJob := .ok (),
    GetAllBuildIds := .ok [⟨104, ""⟩, ⟨103, ""⟩],
    GetBuild := fun n => .ok (mkBuild n false false),
    GetLastBuild := .ok (mkBuild 104 false false) }

/-- Builds 105, 104, 103 listed, every per-build fetch failing. -/
def unreachableBuilds : Jenkins :=
  { Init := .ok (), GetJob := .ok (),
    GetAllBuildIds := .ok [⟨105, ""⟩, ⟨104, ""⟩, ⟨103, ""⟩],
    GetBuild := fun _ => .error "timeout",
    GetLastBuild := .ok (mkBuild 105 false false) }

/-! ## Decimal encoding -/

theorem digitChar_toNat (d : Nat) (h : d < 10) : (digitChar d).toNat - 48 = d := by
  interval_cases d <;> rfl

theorem digitChar_ne_minus (d : Nat) (h : d < 10) : digitChar d ≠ '-' := by
  interval_cases d <;> decide

theorem parseDigits_snoc (ds : List Char) (c : Char) :
    parseDigits (ds ++ [c]) = parseDigits ds * 10 + (c.toNat - 48) := by
  simp [parseDigits, List.foldl_append]

/-- With enough fuel `formatBits` puts in front of the accumulator a non-empty run of digit
characters whose value is `n`. -/
theorem formatBits_spec : ∀ (fuel n : Nat), n < fuel →
    ∃ ds : List Char, (∀ acc, formatBits fuel n acc = ds ++ acc) ∧ parseDigits ds = n ∧
      ds ≠ [] ∧ ∀ c ∈ ds, c ≠ '-' := by
  intro fuel
  induction fuel with
  | zero => intro n h; omega
  | succ fuel ih =>
    intro n h
    by_cases h10 : n < 10
    · refine ⟨[digitChar n], ?_, ?_, by simp, ?_⟩
      · intro acc; simp [formatBits, h10]
      · simp [parseDigits, digitChar_toNat n h10]
      · intro c hc
        simp only [List.mem_singleton] at hc
        subst hc
        exact digitChar_ne_minus n h10
    · have hlt : n / 10 < fuel := by omega
      obtain ⟨ds, hds, hval, -, hminus⟩ := ih (n / 10) hlt
      refine ⟨ds ++ [digitChar (n % 10)], ?_, ?_, by simp, ?_⟩
      · intro acc; simp [formatBits, h10, hds]
      · rw [parseDigits_snoc, hval, digitChar_toNat _ (Nat.mod_lt _ (by decide))]
        omega
      · intro c hc
        rcases List.mem_append.1 hc with hc | hc
        · exact hminus c hc
        · simp only [List.mem_singleton] at hc
          subst hc
          exact digitChar_ne_minus _ (Nat.mod_lt _ (by decide))

theorem formatUint_spec (n : Nat) :
    parseDigits (formatUint n) = n ∧ formatUint n ≠ [] ∧ ∀ c ∈ formatUint n, c ≠ '-' := by
  obtain ⟨ds, hds, hval, hne, hminus⟩ := formatBits_spec (n + 1) n (Nat.lt_succ_self n)
  have h : formatUint n = ds := by simpa [formatUint] using hds []
  rw [h]
  exact ⟨hval, hne, hminus⟩

/-- Decoding the decimal text of an integer gives the integer back. -/
theorem Atoi_Itoa (i : Int) : Atoi (Itoa i) = i := by
  obtain ⟨hval, hne, hminus⟩ := formatUint_spec i.toNat
  obtain ⟨hvalN, -, -⟩ := formatUint_spec i.natAbs
  by_cases hi : i < 0
  · simp only [Itoa, hi, if_true, Atoi, hvalN]
    omega
  · simp only [Itoa, hi, if_false, Atoi]
    cases hds : formatUint i.toNat with
    | nil => exact absurd hds hne
    | cons c ds =>
      have hc : c ≠ '-' := hminus c (by simp [hds])
      simp only [hc, if_false]
      rw [← hds, hval]
      omega

theorem Itoa_injective : Function.Injective Itoa :=
  Function.LeftInverse.injective Atoi_Itoa

theorem Itoa_eq_iff (m n : Int) : Itoa m = Itoa n ↔ m = n :=
  Itoa_injective.eq_iff

/-! ## The blame fold -/

theorem blame_fold_false (l : List Bool) :
    l.foldl (fun blame isGood => if isGood then false else blame) false = false := by
  induction l with
  | nil => rfl
  | cons g l ih => cases g <;> simpa using ih

/-- The fold of lines 128-133 is true exactly when no entry is good. -/
theorem blameOf_iff (l : List Bool) : blameOf l = true ↔ ∀ g ∈ l, g = false := by
  induction l with
  | nil => simp [blameOf]
  | cons g l ih =>
    cases g
    · simpa [blameOf] using ih
    · simp only [blameOf, List.foldl_cons, if_true]
      rw [blame_fold_false]
      simp

/-! ## The two loops -/

theorem bootstrapLoop_posts (p : Plugin) : ∀ (ids : List JobBuild) (i : Nat) (w : World)
    (acc : List Bool), (bootstrapLoop p i ids w acc).world.posts = w.posts := by
  intro ids
  induction ids with
  | nil => intro i w acc; rfl
  | cons b rest ih =>
    intro i w acc
    unfold bootstrapLoop
    cases hb : p.jenkins.GetBuild b.Number with
    | error e => by_cases h0 : i = 0 <;> simp [Flow.world, World.call, World.KVSet, h0]
    | ok job =>
      by_cases h2 : i = 2
      · simp [Flow.world, World.call, World.KVSet, h2]
      · by_cases h0 : i = 0 <;> simp [h2, h0, ih, World.call, World.KVSet]

theorem bootstrapLoop_kv (p : Plugin) : ∀ (ids : List JobBuild) (i : Nat) (w : World)
    (acc : List Bool), i ≠ 0 → (bootstrapLoop p i ids w acc).world.kv = w.kv := by
  intro ids
  induction ids with
  | nil => intro i w acc _; rfl
  | cons b rest ih =>
    intro i w acc h0
    unfold bootstrapLoop
    cases hb : p.jenkins.GetBuild b.Number with
    | error e => simp [Flow.world, World.call, h0]
    | ok job =>
      by_cases h2 : i = 2
      · simp [Flow.world, World.call, h2]
      · simp [h2, h0, ih, World.call]

/-- On a non-empty list the bootstrap loop leaves the store with the first identifier written
under the marker key, however it ends. -/
theorem bootstrapLoop_kv_zero (p : Plugin) (b : JobBuild) (rest : List JobBuild) (w : World)
    (acc : List Bool) :
    (bootstrapLoop p 0 (b :: rest) w acc).world.kv
      = (w.KVSet JENKINS_LASTBUILD_KEY (Itoa b.Number)).kv := by
  unfold bootstrapLoop
  cases hb : p.jenkins.GetBuild b.Number with
  | error e => simp [Flow.world, World.call]
  | ok job => simp [bootstrapLoop_kv, World.call]

/-- When the fetch of every sampled build succeeds, the bootstrap loop falls through with
the outcomes of the next `3 - i` identifiers appended, in list order. -/
theorem bootstrapLoop_sample (p : Plugin) (outcome : Int → Build) :
    ∀ (ids : List JobBuild) (i : Nat) (w : World) (acc : List Bool), i ≤ 2 →
      (∀ b ∈ ids.take (3 - i), p.jenkins.GetBuild b.Number = .ok (outcome b.Number)) →
      ∃ w1, bootstrapLoop p i ids w acc
        = .next (w1, acc ++ (ids.take (3 - i)).map (fun b => (outcome b.Number).IsGood)) := by
  intro ids
  induction ids with
  | nil => intro i w acc _ _; exact ⟨w, by simp [bootstrapLoop]⟩
  | cons b rest ih =>
    intro i w acc hi hall
    obtain ⟨k, hk⟩ : ∃ k, 3 - i = k + 1 := ⟨2 - i, by omega⟩
    rw [hk] at hall ⊢
    have hb : p.jenkins.GetBuild b.Number = .ok (outcome b.Number) :=
      hall b (by simp)
    unfold bootstrapLoop
    simp only [hb]
    by_cases h2 : i = 2
    · have hk0 : k = 0 := by omega
      subst hk0
      exact ⟨(if i = 0 then w.KVSet JENKINS_LASTBUILD_KEY (Itoa b.Number) else w).call
        (.GetBuild b.Number), by simp [h2]⟩
    · have hk1 : 3 - (i + 1) = k := by omega
      obtain ⟨w1, hw1⟩ := ih (i + 1)
        ((if i = 0 then w.KVSet JENKINS_LASTBUILD_KEY (Itoa b.Number) else w).call
          (.GetBuild b.Number))
        (acc ++ [(outcome b.Number).IsGood]) (by omega)
        (by
          rw [hk1]
          intro c hc
          exact hall c (by simp [hc]))
      rw [hk1] at hw1
      exact ⟨w1, by simp [h2, hw1]⟩

theorem steadyLoop_posts (p : Plugin) : ∀ (ids : List JobBuild) (i : Nat) (w : World)
    (acc : List Bool), (steadyLoop p i ids w acc).world.posts = w.posts := by
  intro ids
  induction ids with
  | nil => intro i w acc; rfl
  | cons b rest ih =>
    intro i w acc
    unfold steadyLoop
    cases hb : p.jenkins.GetBuild b.Number with
    | error e => simp [Flow.world, World.call]
    | ok job =>
      by_cases hr : i = 0 ∧ job.IsRunning = true
      · simp [Flow.world, World.call, hr]
      · by_cases h2 : i = 2
        · simp [Flow.world, World.call, World.KVSet, h2]
        · by_cases h0 : i = 0 <;> simp_all [World.call, World.KVSet, Flow.world]

theorem steadyLoop_kv (p : Plugin) : ∀ (ids : List JobBuild) (i : Nat) (w : World)
    (acc : List Bool), i ≠ 0 → (steadyLoop p i ids w acc).world.kv = w.kv := by
  intro ids
  induction ids with
  | nil => intro i w acc _; rfl
  | cons b rest ih =>
    intro i w acc h0
    unfold steadyLoop
    cases hb : p.jenkins.GetBuild b.Number with
    | error e => simp [Flow.world, World.call]
    | ok job =>
      by_cases h2 : i = 2
      · simp [Flow.world, World.call, h2]
      · simp [h2, h0, ih, World.call]

/-- When the fetch of every sampled build succeeds and the loop is past the running check,
the steady-state loop falls through with the outcomes of the next `3 - i` identifiers. -/
theorem steadyLoop_sample (p : Plugin) (outcome : Int → Build) :
    ∀ (ids : List JobBuild) (i : Nat) (w : World) (acc : List Bool), i ≤ 2 →
      (∀ b ∈ ids.take (3 - i), p.jenkins.GetBuild b.Number = .ok (outcome b.Number)) →
      (i = 0 → ∀ b ∈ ids.head?, (outcome b.Number).IsRunning = false) →
      ∃ w1, steadyLoop p i ids w acc
        = .next (w1, acc ++ (ids.take (3 - i)).map (fun b => (outcome b.Number).IsGood)) := by
  intro ids
  induction ids with
  | nil => intro i w acc _ _ _; exact ⟨w, by simp [steadyLoop]⟩
  | cons b rest ih =>
    intro i w acc hi hall hrun
    obtain ⟨k, hk⟩ : ∃ k, 3 - i = k + 1 := ⟨2 - i, by omega⟩
    rw [hk] at hall ⊢
    have hb : p.jenkins.GetBuild b.Number = .ok (outcome b.Number) :=
      hall b (by simp)
    have hnr : ¬ (i = 0 ∧ (outcome b.Number).IsRunning = true) := by
      rintro ⟨h0, hr⟩
      have := hrun h0 b (by simp)
      simp [this] at hr
    unfold steadyLoop
    simp only [hb, hnr, if_false]
    by_cases h2 : i = 2
    · have hk0 : k = 0 := by omega
      subst hk0
      exact ⟨(if i = 0 then (w.call (.GetBuild b.Number)).KVSet JENKINS_LASTBUILD_KEY
          (Itoa b.Number) else w.call (.GetBuild b.Number)), by simp [h2]⟩
    · have hk1 : 3 - (i + 1) = k := by omega
      obtain ⟨w1, hw1⟩ := ih (i + 1)
        (if i = 0 then (w.call (.GetBuild b.Number)).KVSet JENKINS_LASTBUILD_KEY
          (Itoa b.Number) else w.call (.GetBuild b.Number))
        (acc ++ [(outcome b.Number).IsGood]) (by omega)
        (by
          rw [hk1]
          intro c hc
          exact hall c (by simp [hc]))
        (by omega)
      rw [hk1] at hw1
      exact ⟨w1, by simp [h2, hw1]⟩

/-! ## Dispatch of the cycle -/

/-- A cycle leaves the world untouched or runs one of the two paths. -/
theorem checkJenkinsJob_cases (p : Plugin) (w : World) :
    checkJenkinsJob p w = (w, .returned)
    ∨ (w.marker = none ∧ checkJenkinsJob p w = bootstrapPath p w)
    ∨ (∃ s, w.marker = some s ∧ checkJenkinsJob p w = steadyPath p w s) := by
  unfold checkJenkinsJob
  cases p.jenkins.Init with
  | error e => exact Or.inl rfl
  | ok u =>
    cases p.jenkins.GetJob with
    | error e => exact Or.inl rfl
    | ok u2 =>
      cases hkv : w.KVGet JENKINS_LASTBUILD_KEY with
      | none => exact Or.inr (Or.inl ⟨hkv, rfl⟩)
      | some s => exact Or.inr (Or.inr ⟨s, hkv, rfl⟩)

theorem checkJenkinsJob_bootstrap (p : Plugin) (w : World)
    (hInit : p.jenkins.Init = .ok ()) (hJob : p.jenkins.GetJob = .ok ())
    (hm : w.marker = none) : checkJenkinsJob p w = bootstrapPath p w := by
  have hkv : w.KVGet JENKINS_LASTBUILD_KEY = none := hm
  unfold checkJenkinsJob
  simp only [hInit, hJob, hkv]

theorem checkJenkinsJob_steady (p : Plugin) (w : World) (s : String)
    (hInit : p.jenkins.Init = .ok ()) (hJob : p.jenkins.GetJob = .ok ())
    (hm : w.marker = some s) : checkJenkinsJob p w = steadyPath p w s := by
  have hkv : w.KVGet JENKINS_LASTBUILD_KEY = some s := hm
  unfold checkJenkinsJob
  simp only [hInit, hJob, hkv]

/-- The steady-state path when the skip test of line 155 holds. -/
theorem steadyPath_skip (p : Plugin) (w : World) (s : String) (lastBuild : Build)
    (hlast : p.jenkins.GetLastBuild = .ok lastBuild)
    (hskip : s = Itoa lastBuild.Number ∨ lastBuild.IsRunning = true) :
    steadyPath p w s = (w.call .GetLastBuild, .returned) := by
  unfold steadyPath
  simp only [hlast]
  rw [if_pos hskip]

/-- The steady-state path past the skip test, with the list fetched. -/
theorem steadyPath_go (p : Plugin) (w : World) (s : String) (lastBuild : Build)
    (buildIDs : List JobBuild)
    (hlast : p.jenkins.GetLastBuild = .ok lastBuild)
    (hgo : ¬ (s = Itoa lastBuild.Number ∨ lastBuild.IsRunning = true))
    (hIds : p.jenkins.GetAllBuildIds = .ok buildIDs) :
    steadyPath p w s =
      match steadyLoop p 0 buildIDs ((w.call .GetLastBuild).call .GetAllBuildIds) [] with
      | .panic w3 => (w3, .panicked)
      | .ret w3 => (w3, .returned)
      | .next (w3, last3Builds) =>
        if blameOf last3Builds then
          steadyPost p (w3.call .GetResultSet) (msgTestResults lastBuild)
        else (w3.call .GetResultSet, .returned) := by
  unfold steadyPath
  simp only [hlast, hIds]
  rw [if_neg hgo]

/-- The bootstrap path with the list fetched. -/
theorem bootstrapPath_go (p : Plugin) (w : World) (buildIDs : List JobBuild)
    (hIds : p.jenkins.GetAllBuildIds = .ok buildIDs) :
    bootstrapPath p w =
      match bootstrapLoop p 0 buildIDs (w.call .GetAllBuildIds) [] with
      | .panic w2 => (w2, .panicked)
      | .ret w2 => (w2, .returned)
      | .next (w2, last3Builds) =>
        if blameOf last3Builds then (w2.CreatePost (bootstrapPost p), .returned)
        else (w2, .returned) := by
  unfold bootstrapPath
  simp only [hIds]

/-! ## The blame decision -/

/-- C1: on both paths of `checkJenkinsJob` the loop samples the first `min 3 n` identifiers
in list order and the blame decision is true exactly when none of the sampled builds is
good; a post is created on the bootstrap path exactly when blame is true, and none is created
on the steady-state path when blame is false; with zero builds blame is true and with
outcomes `[true, false, false]` it is false. -/
theorem blame_iff_no_sampled_build_good (p : Plugin) (w : World) (buildIDs : List JobBuild)
    (outcome : Int → Build)
    (hInit : p.jenkins.Init = .ok ()) (hJob : p.jenkins.GetJob = .ok ())
    (hIds : p.jenkins.GetAllBuildIds = .ok buildIDs)
    (hBuild : ∀ b ∈ sampled buildIDs, p.jenkins.GetBuild b.Number = .ok (outcome b.Number)) :
    (blameOf ((sampled buildIDs).map fun b => (outcome b.Number).IsGood) = true
        ↔ ∀ b ∈ sampled buildIDs, (outcome b.Number).IsGood = false)
    ∧ (w.marker = none →
        (∃ w1, bootstrapLoop p 0 buildIDs (w.call .GetAllBuildIds) []
            = .next (w1, (sampled buildIDs).map fun b => (outcome b.Number).IsGood))
        ∧ (checkJenkinsJob p w).1.posts
            = if blameOf ((sampled buildIDs).map fun b => (outcome b.Number).IsGood)
              then w.posts ++ [bootstrapPost p] else w.posts)
    ∧ (∀ s lastBuild, w.marker = some s → p.jenkins.GetLastBuild = .ok lastBuild →
        s ≠ Itoa lastBuild.Number → lastBuild.IsRunning = false →
        (∀ b ∈ buildIDs.head?, (outcome b.Number).IsRunning = false) →
        (∃ w1, steadyLoop p 0 buildIDs ((w.call .GetLastBuild).call .GetAllBuildIds) []
            = .next (w1, (sampled buildIDs).map fun b => (outcome b.Number).IsGood))
        ∧ (blameOf ((sampled buildIDs).map fun b => (outcome b.Number).IsGood) = false →
            (checkJenkinsJob p w).1.posts = w.posts)
        ∧ (blameOf ((sampled buildIDs).map fun b => (outcome b.Number).IsGood) = true →
            GetLast3Commiters p ≠ .panic →
            (checkJenkinsJob p w).1.posts.length = w.posts.length + 1))
    ∧ blameOf [] = true ∧ blameOf [true, false, false] = false := by
  refine ⟨?_, ?_, ?_, by decide, by decide⟩
  · rw [blameOf_iff]
    simp
  · intro hm
    obtain ⟨w1, hw1⟩ := bootstrapLoop_sample p outcome buildIDs 0 (w.call .GetAllBuildIds) []
      (by omega) (by simpa [sampled] using hBuild)
    have hposts := bootstrapLoop_posts p buildIDs 0 (w.call .GetAllBuildIds) []
    simp only [Nat.sub_zero, List.nil_append] at hw1
    rw [hw1] at hposts
    simp only [Flow.world, World.call] at hposts
    refine ⟨⟨w1, hw1⟩, ?_⟩
    rw [checkJenkinsJob_bootstrap p w hInit hJob hm, bootstrapPath_go p w buildIDs hIds, hw1]
    simp only [sampled]
    split <;> simp [World.CreatePost, hposts]
  · intro s lastBuild hm hlast hne hrun hfirst
    obtain ⟨w1, hw1⟩ := steadyLoop_sample p outcome buildIDs 0
      ((w.call .GetLastBuild).call .GetAllBuildIds) []
      (by omega) (by simpa [sampled] using hBuild) (fun _ => hfirst)
    have hposts := steadyLoop_posts p buildIDs 0 ((w.call .GetLastBuild).call .GetAllBuildIds) []
    simp only [Nat.sub_zero, List.nil_append] at hw1
    rw [hw1] at hposts
    simp only [Flow.world, World.call] at hposts
    have hgo : ¬ (s = Itoa lastBuild.Number ∨ lastBuild.IsRunning = true) := by
      simp [hne, hrun]
    have hcycle := (checkJenkinsJob_steady p w s hInit hJob hm).trans
      (steadyPath_go p w s lastBuild buildIDs hlast hgo hIds)
    rw [hw1] at hcycle
    refine ⟨⟨w1, hw1⟩, ?_, ?_⟩
    · intro hb
      rw [hcycle]
      simp only [sampled] at hb ⊢
      rw [hb]
      simp [World.call, hposts]
    · intro hb hpanic
      rw [hcycle]
      simp only [sampled] at hb ⊢
      cases hc : GetLast3Commiters p with
      | panic => exact absurd hc hpanic
      | ok r =>
        rw [hb]
        simp [steadyPost, hc, World.CreatePost, World.call, hposts]

/-- C1 witness: the listed builds 105, 104, 103, 102 with 105 good and the others failed. -/
theorem blame_iff_no_sampled_build_good_witness :
    (checkJenkinsJob (pluginOf (fourBuilds fun n => decide (n = 105))) freshWorld).1.posts = []
    ∧ (checkJenkinsJob (pluginOf (fourBuilds fun n => decide (n = 105)))
        (worldWithMarker "104")).1.posts = [] := by
  have h := blame_iff_no_sampled_build_good (pluginOf (fourBuilds fun n => decide (n = 105)))
    freshWorld [⟨105, ""⟩, ⟨104, ""⟩, ⟨103, ""⟩, ⟨102, ""⟩]
    (fun n => mkBuild n (decide (n = 105)) false) rfl rfl rfl (fun _ _ => rfl)
  have h2 := blame_iff_no_sampled_build_good (pluginOf (fourBuilds fun n => decide (n = 105)))
    (worldWithMarker "104") [⟨105, ""⟩, ⟨104, ""⟩, ⟨103, ""⟩, ⟨102, ""⟩]
    (fun n => mkBuild n (decide (n = 105)) false) rfl rfl rfl (fun _ _ => rfl)
  refine ⟨?_, ?_⟩
  · have h3 := (h.2.1 (by decide)).2
    rw [h3]
    decide
  · exact (h2.2.2.1 "104" (mkBuild 105 true false) (by decide) rfl (by decide) rfl
      (by decide)).2.1 (by decide)

/-! ## The steady-state skip -/

theorem steadyLoop_calls (p : Plugin) : ∀ (ids : List JobBuild) (i : Nat) (w : World)
    (acc : List Bool), ∃ cs, (steadyLoop p i ids w acc).world.calls = w.calls ++ cs := by
  intro ids
  induction ids with
  | nil => intro i w acc; exact ⟨[], by simp [steadyLoop, Flow.world]⟩
  | cons b rest ih =>
    intro i w acc
    unfold steadyLoop
    cases hb : p.jenkins.GetBuild b.Number with
    | error e => exact ⟨[.GetBuild b.Number], by simp [Flow.world, World.call]⟩
    | ok job =>
      by_cases hr : i = 0 ∧ job.IsRunning = true
      · exact ⟨[.GetBuild b.Number], by simp [Flow.world, World.call, hr]⟩
      · by_cases h2 : i = 2
        · exact ⟨[.GetBuild b.Number], by simp [Flow.world, World.call, World.KVSet, h2]⟩
        · obtain ⟨cs, hcs⟩ := ih (i + 1)
            (if i = 0 then (w.call (.GetBuild b.Number)).KVSet JENKINS_LASTBUILD_KEY
              (Itoa b.Number) else w.call (.GetBuild b.Number))
            (acc ++ [job.IsGood])
          refine ⟨.GetBuild b.Number :: cs, ?_⟩
          simp only [hr, h2, if_false]
          rw [hcs]
          by_cases h0 : i = 0 <;> simp [h0, World.call, World.KVSet]

/-- The calls a steady-state cycle makes once it is past the skip test start with the
latest-build fetch and the list fetch. -/
theorem steady_calls_after_skip_test (p : Plugin) (w : World) (s : String) (lastBuild : Build)
    (hlast : p.jenkins.GetLastBuild = .ok lastBuild)
    (hgo : ¬ (s = Itoa lastBuild.Number ∨ lastBuild.IsRunning = true)) :
    ∃ cs, (steadyPath p w s).1.calls = w.calls ++ (.GetLastBuild :: .GetAllBuildIds :: cs) := by
  cases hIds : p.jenkins.GetAllBuildIds with
  | error e =>
    refine ⟨[], ?_⟩
    unfold steadyPath
    simp only [hlast, hIds]
    rw [if_neg hgo]
    simp [World.call]
  | ok buildIDs =>
    obtain ⟨cs, hcs⟩ := steadyLoop_calls p buildIDs 0
      ((w.call .GetLastBuild).call .GetAllBuildIds) []
    rw [steadyPath_go p w s lastBuild buildIDs hlast hgo hIds]
    cases hl : steadyLoop p 0 buildIDs ((w.call .GetLastBuild).call .GetAllBuildIds) [] with
    | panic w3 =>
      rw [hl] at hcs
      exact ⟨cs, by simpa [Flow.world, World.call] using hcs⟩
    | ret w3 =>
      rw [hl] at hcs
      exact ⟨cs, by simpa [Flow.world, World.call] using hcs⟩
    | next r =>
      obtain ⟨w3, l⟩ := r
      rw [hl] at hcs
      simp only [Flow.world, World.call] at hcs
      by_cases hb : blameOf l = true
      · simp only [hb, if_true, steadyPost]
        cases hc : GetLast3Commiters p with
        | panic => exact ⟨cs ++ [.GetResultSet], by simp [World.call, hcs]⟩
        | ok r => exact ⟨cs ++ [.GetResultSet], by simp [World.call, World.CreatePost, hcs]⟩
      · simp only [hb]
        exact ⟨cs ++ [.GetResultSet], by simp [World.call, hcs]⟩

/-- C2: on the steady-state path with Marker `Itoa m` and the latest build fetched, the list
fetch is absent from the calls of the cycle exactly when the latest build's number is `m`
or the latest build is running; in that case the only call is the latest-build fetch, the
cycle returns, the Marker is unchanged and no post is created. Decoding the Marker gives
`m` back. -/
theorem steady_skip_iff (p : Plugin) (w : World) (m : Int) (lastBuild : Build)
    (hInit : p.jenkins.Init = .ok ()) (hJob : p.jenkins.GetJob = .ok ())
    (hm : w.marker = some (Itoa m))
    (hlast : p.jenkins.GetLastBuild = .ok lastBuild) :
    (∃ made, (checkJenkinsJob p w).1.calls = w.calls ++ made
        ∧ (Call.GetAllBuildIds ∉ made ↔ (lastBuild.Number = m ∨ lastBuild.IsRunning = true)))
    ∧ ((lastBuild.Number = m ∨ lastBuild.IsRunning = true) →
        (checkJenkinsJob p w).1.calls = w.calls ++ [.GetLastBuild]
        ∧ (checkJenkinsJob p w).2 = .returned
        ∧ (checkJenkinsJob p w).1.marker = some (Itoa m)
        ∧ (checkJenkinsJob p w).1.kv = w.kv
        ∧ (checkJenkinsJob p w).1.posts = w.posts)
    ∧ Atoi (Itoa m) = m := by
  have hcond : (Itoa m = Itoa lastBuild.Number ∨ lastBuild.IsRunning = true)
      ↔ (lastBuild.Number = m ∨ lastBuild.IsRunning = true) := by
    rw [Itoa_eq_iff]
    constructor <;> rintro (h | h) <;> first | exact Or.inl h.symm | exact Or.inr h
  have hskip : (lastBuild.Number = m ∨ lastBuild.IsRunning = true) →
      checkJenkinsJob p w = (w.call .GetLastBuild, .returned) := by
    intro h
    rw [checkJenkinsJob_steady p w _ hInit hJob hm]
    exact steadyPath_skip p w _ lastBuild hlast (hcond.2 h)
  refine ⟨?_, ?_, Atoi_Itoa m⟩
  · by_cases h : lastBuild.Number = m ∨ lastBuild.IsRunning = true
    · refine ⟨[.GetLastBuild], by rw [hskip h]; rfl, ?_⟩
      simp [h]
    · obtain ⟨cs, hcs⟩ := steady_calls_after_skip_test p w (Itoa m) lastBuild
        hlast (fun hc => h (hcond.1 hc))
      rw [← checkJenkinsJob_steady p w _ hInit hJob hm] at hcs
      refine ⟨_, hcs, ?_⟩
      simp [h]
  · intro h
    rw [hskip h]
    exact ⟨rfl, rfl, hm, rfl, rfl⟩

/-- C2 witness: Marker 105 and latest build 105. -/
theorem steady_skip_iff_witness :
    (checkJenkinsJob (pluginOf (fourBuilds fun _ => false)) (worldWithMarker "105")).1.calls
        = [.GetLastBuild]
    ∧ (checkJenkinsJob (pluginOf (fourBuilds fun _ => false)) (worldWithMarker "105")).1.marker
        = some "105"
    ∧ (checkJenkinsJob (pluginOf (fourBuilds fun _ => false)) (worldWithMarker "105")).1.posts
        = [] := by
  have h := (steady_skip_iff (pluginOf (fourBuilds fun _ => false)) (worldWithMarker "105") 105
    (mkBuild 105 false false) rfl rfl (by decide) rfl).2.1 (Or.inl rfl)
  exact ⟨h.1, h.2.2.1, h.2.2.2.2⟩

/-- C3: with the Marker set, a non-empty identifier list and the build of its first
identifier running, the cycle returns with the Marker unchanged and no post created; when the
loop is reached it returns at the running check before any write. -/
theorem running_newest_defers (p : Plugin) (w : World) (s : String) (b : JobBuild)
    (rest : List JobBuild) (job : Build)
    (hm : w.marker = some s)
    (hIds : p.jenkins.GetAllBuildIds = .ok (b :: rest))
    (hBuild : p.jenkins.GetBuild b.Number = .ok job)
    (hRunning : job.IsRunning = true) :
    (checkJenkinsJob p w).1.marker = some s
    ∧ (checkJenkinsJob p w).1.kv = w.kv
    ∧ (checkJenkinsJob p w).1.posts = w.posts
    ∧ (checkJenkinsJob p w).2 = .returned
    ∧ ∀ w1 acc, steadyLoop p 0 (b :: rest) w1 acc = .ret (w1.call (.GetBuild b.Number)) := by
  have hloop : ∀ w1 acc, steadyLoop p 0 (b :: rest) w1 acc
      = .ret (w1.call (.GetBuild b.Number)) := by
    intro w1 acc
    unfold steadyLoop
    simp [hBuild, hRunning]
  have hsteady : (steadyPath p w s).1.kv = w.kv ∧ (steadyPath p w s).1.posts = w.posts
      ∧ (steadyPath p w s).2 = .returned := by
    cases hlast : p.jenkins.GetLastBuild with
    | error e =>
      unfold steadyPath
      simp [hlast, World.call]
    | ok lastBuild =>
      by_cases hskip : s = Itoa lastBuild.Number ∨ lastBuild.IsRunning = true
      · rw [steadyPath_skip p w s lastBuild hlast hskip]
        exact ⟨rfl, rfl, rfl⟩
      · rw [steadyPath_go p w s lastBuild (b :: rest) hlast hskip hIds, hloop]
        exact ⟨rfl, rfl, rfl⟩
  have key : (checkJenkinsJob p w).1.kv = w.kv ∧ (checkJenkinsJob p w).1.posts = w.posts
      ∧ (checkJenkinsJob p w).2 = .returned := by
    rcases checkJenkinsJob_cases p w with h | ⟨hnone, -⟩ | ⟨s1, hs1, h⟩
    · rw [h]
      exact ⟨rfl, rfl, rfl⟩
    · rw [hm] at hnone
      cases hnone
    · rw [hm] at hs1
      cases hs1
      rw [h]
      exact hsteady
  refine ⟨?_, key.1, key.2.1, key.2.2, hloop⟩
  show (checkJenkinsJob p w).1.kv JENKINS_LASTBUILD_KEY = some s
  rw [key.1]
  exact hm

/-- C3 witness: Marker 105, newest listed build 106 running. -/
theorem running_newest_defers_witness :
    (checkJenkinsJob (pluginOf runningNewest) (worldWithMarker "105")).1.marker = some "105"
    ∧ (checkJenkinsJob (pluginOf runningNewest) (worldWithMarker "105")).1.posts = [] := by
  have h := running_newest_defers (pluginOf runningNewest) (worldWithMarker "105") "105"
    ⟨106, ""⟩ [⟨105, ""⟩, ⟨104, ""⟩] (mkBuild 106 false true) (by decide) rfl rfl rfl
  exact ⟨h.1, h.2.2.1⟩

/-! ## The bootstrap path -/

theorem bootstrapPath_kv (p : Plugin) (w : World) (buildIDs : List JobBuild)
    (hIds : p.jenkins.GetAllBuildIds = .ok buildIDs) :
    (bootstrapPath p w).1.kv
      = (bootstrapLoop p 0 buildIDs (w.call .GetAllBuildIds) []).world.kv := by
  rw [bootstrapPath_go p w buildIDs hIds]
  cases hl : bootstrapLoop p 0 buildIDs (w.call .GetAllBuildIds) [] with
  | panic w2 => rfl
  | ret w2 => rfl
  | next r =>
    obtain ⟨w2, l⟩ := r
    by_cases hb : blameOf l = true
    · simp [hb, Flow.world, World.CreatePost]
    · simp [hb, Flow.world]

/-- C4: on the bootstrap path with a non-empty identifier list the cycle leaves the Marker at
the decimal text of the first identifier's number; when the sampled builds are fetched and
none is good it creates exactly one post, whose message is the fixed three-failures text and
whose props are empty, and returns. -/
theorem bootstrap_marker_and_post (p : Plugin) (w : World) (b : JobBuild)
    (rest : List JobBuild)
    (hInit : p.jenkins.Init = .ok ()) (hJob : p.jenkins.GetJob = .ok ())
    (hm : w.marker = none)
    (hIds : p.jenkins.GetAllBuildIds = .ok (b :: rest)) :
    (checkJenkinsJob p w).1.marker = some (Itoa b.Number)
    ∧ ∀ outcome : Int → Build,
        (∀ c ∈ sampled (b :: rest), p.jenkins.GetBuild c.Number = .ok (outcome c.Number)) →
        (∀ c ∈ sampled (b :: rest), (outcome c.Number).IsGood = false) →
        (checkJenkinsJob p w).1.posts
            = w.posts ++ [{ UserId := p.BotUserID, ChannelId := p.ChannelID,
                            Message := "last build 3 build failed, please check",
                            Props := [] }]
          ∧ (checkJenkinsJob p w).2 = .returned := by
  have hcycle := checkJenkinsJob_bootstrap p w hInit hJob hm
  refine ⟨?_, ?_⟩
  · show (checkJenkinsJob p w).1.kv JENKINS_LASTBUILD_KEY = some (Itoa b.Number)
    rw [hcycle, bootstrapPath_kv p w (b :: rest) hIds, bootstrapLoop_kv_zero]
    simp [World.KVSet]
  · intro outcome hBuild hbad
    obtain ⟨w1, hw1⟩ := bootstrapLoop_sample p outcome (b :: rest) 0 (w.call .GetAllBuildIds) []
      (by omega) (by simpa [sampled] using hBuild)
    have hposts := bootstrapLoop_posts p (b :: rest) 0 (w.call .GetAllBuildIds) []
    simp only [Nat.sub_zero, List.nil_append] at hw1
    rw [hw1] at hposts
    simp only [Flow.world, World.call] at hposts
    have hblame : blameOf ((List.take 3 (b :: rest)).map fun c => (outcome c.Number).IsGood)
        = true := by
      rw [blameOf_iff]
      intro g hg
      obtain ⟨c, hc, rfl⟩ := List.mem_map.1 hg
      exact hbad c hc
    rw [hcycle, bootstrapPath_go p w (b :: rest) hIds, hw1]
    simp only [hblame, if_true]
    exact ⟨by simp [World.CreatePost, hposts, bootstrapPost], trivial⟩

/-- C4 witness: no Marker, identifiers 105, 104, 103, 102, none of them good. -/
theorem bootstrap_marker_and_post_witness :
    (checkJenkinsJob (pluginOf (fourBuilds fun _ => false)) freshWorld).1.marker = some "105"
    ∧ (checkJenkinsJob (pluginOf (fourBuilds fun _ => false)) freshWorld).1.posts
        = [{ UserId := "bot", ChannelId := "town",
             Message := "last build 3 build failed, please check", Props := [] }] := by
  have h := bootstrap_marker_and_post (pluginOf (fourBuilds fun _ => false)) freshWorld
    ⟨105, ""⟩ [⟨104, ""⟩, ⟨103, ""⟩, ⟨102, ""⟩] rfl rfl rfl rfl
  exact ⟨h.1, (h.2 (fun n => mkBuild n false false) (fun _ _ => rfl) (fun _ _ => rfl)).1⟩

/-! ## Test lines -/

theorem isFailedStatus_iff (status : String) :
    isFailedStatus status
      = decide (status = "FAILED" ∨ status = "REGRESSION" ∨ status = "FAIL") := by
  rw [Bool.eq_iff_iff]
  simp [isFailedStatus, or_assoc]

theorem cases_fold (cases : List TestCase) : ∀ msg : List String,
    cases.foldl
        (fun msg suiteCase =>
          if isFailedStatus suiteCase.Status then msg ++ [caseLine suiteCase] else msg) msg
      = msg ++ (cases.filter fun c => isFailedStatus c.Status).map caseLine := by
  induction cases with
  | nil => intro msg; simp
  | cons c cs ih =>
    intro msg
    by_cases hc : isFailedStatus c.Status = true
    · simp [List.foldl_cons, hc, ih]
    · simp [List.foldl_cons, hc, ih]

theorem suites_fold (suites : List TestSuite) : ∀ msg : List String,
    suites.foldl
        (fun msg suite =>
          suite.Cases.foldl
            (fun msg suiteCase =>
              if isFailedStatus suiteCase.Status then msg ++ [caseLine suiteCase] else msg)
            msg) msg
      = msg ++ ((suites.flatMap fun suite => suite.Cases).filter
          fun c => isFailedStatus c.Status).map caseLine := by
  induction suites with
  | nil => intro msg; simp
  | cons su sus ih =>
    intro msg
    simp only [List.foldl_cons, List.flatMap_cons]
    rw [ih, cases_fold]
    simp

/-- C5: the test lines are empty when the report fetch fails or `FailCount` is 0; otherwise
they are the header line with the build number and URL, the fail/pass count line, and then
one line for each case, in suite order and case order, whose status is exactly `FAILED`,
`REGRESSION` or `FAIL`; their number is 2 plus the number of such cases. -/
theorem msgTestResults_lines (lastBuild : Build) :
    (∀ e, lastBuild.ResultSet = .error e → msgTestResults lastBuild = [])
    ∧ (∀ tr, lastBuild.ResultSet = .ok tr → tr.FailCount = 0 → msgTestResults lastBuild = [])
    ∧ (∀ tr, lastBuild.ResultSet = .ok tr → tr.FailCount ≠ 0 →
        msgTestResults lastBuild
          = ("Will show the test result from the last build [#" ++ Itoa lastBuild.Number
              ++ "](" ++ lastBuild.Url ++ ")")
            :: ("**FailCount:** `" ++ Itoa tr.FailCount ++ "` **PassCount:** `"
              ++ Itoa tr.PassCount ++ "`")
            :: ((tr.Suites.flatMap fun suite => suite.Cases).filter fun c =>
                  decide (c.Status = "FAILED" ∨ c.Status = "REGRESSION" ∨ c.Status = "FAIL")).map
                (fun c => "**Test Name:** `" ++ c.Name ++ "` **Status:** `" ++ c.Status ++ "` ")
        ∧ (msgTestResults lastBuild).length
          = 2 + ((tr.Suites.flatMap fun suite => suite.Cases).countP fun c =>
                  decide (c.Status = "FAILED" ∨ c.Status = "REGRESSION" ∨ c.Status = "FAIL"))) := by
  refine ⟨?_, ?_, ?_⟩
  · intro e he
    simp [msgTestResults, he]
  · intro tr htr h0
    simp [msgTestResults, htr, h0]
  · intro tr htr h0
    have hfun : (fun c : TestCase => isFailedStatus c.Status)
        = fun c => decide (c.Status = "FAILED" ∨ c.Status = "REGRESSION" ∨ c.Status = "FAIL") :=
      funext fun c => isFailedStatus_iff c.Status
    have hlines : msgTestResults lastBuild
        = headerLine lastBuild :: countLine tr
          :: ((tr.Suites.flatMap fun suite => suite.Cases).filter fun c =>
                decide (c.Status = "FAILED" ∨ c.Status = "REGRESSION" ∨ c.Status = "FAIL")).map
              caseLine := by
      simp only [msgTestResults, htr, h0, ne_eq, not_false_eq_true, if_true, suites_fold, hfun]
      simp
    refine ⟨hlines, ?_⟩
    rw [hlines]
    simp only [List.length_cons, List.length_map, List.countP_eq_length_filter]
    omega

/-- C5 witness: a report with two failures among five cases gives four lines, the case
lines being those of `FAILED` and `REGRESSION`, not of `PASSED`, `FIXED` or `failed`. -/
theorem msgTestResults_lines_witness :
    msgTestResults reportedBuild
      = [ "Will show the test result from the last build [#106](http://ci/job/106)",
          "**FailCount:** `2` **PassCount:** `3`",
          "**Test Name:** `TestA` **Status:** `FAILED` ",
          "**Test Name:** `TestE` **Status:** `REGRESSION` " ] := by
  have h := ((msgTestResults_lines reportedBuild).2.2 _ rfl (by decide)).1
  rw [h]
  decide

/-! ## Splitting and joining -/

theorem splitChars_no_sep (sep : Char) : ∀ a : List Char, sep ∉ a → splitChars sep a = [a] := by
  intro a
  induction a with
  | nil => intro _; rfl
  | cons c cs ih =>
    intro h
    have hc : c ≠ sep := fun e => h (by simp [e])
    have hcs : sep ∉ cs := fun e => h (by simp [e])
    simp [splitChars, hc, ih hcs]

theorem splitChars_append_sep (sep : Char) (rest : List Char) : ∀ a : List Char, sep ∉ a →
    splitChars sep (a ++ sep :: rest) = a :: splitChars sep rest := by
  intro a
  induction a with
  | nil => intro _; simp [splitChars]
  | cons c cs ih =>
    intro h
    have hc : c ≠ sep := fun e => h (by simp [e])
    have hcs : sep ∉ cs := fun e => h (by simp [e])
    simp [splitChars, hc, ih hcs]

/-- Splitting `owner/name` at the slash gives the two parts. -/
theorem stringsSplit_entry (owner name : String) (ho : '/' ∉ owner.data)
    (hn : '/' ∉ name.data) : stringsSplit (owner ++ "/" ++ name) '/' = [owner, name] := by
  have hd : (owner ++ "/" ++ name).data = owner.data ++ '/' :: name.data := by
    simp [String.data_append]
  simp [stringsSplit, hd, splitChars_append_sep '/' name.data owner.data ho,
    splitChars_no_sep '/' name.data hn]

/-- Splitting a comma-joined non-empty list of comma-free entries gives the entries back. -/
theorem stringsSplit_join (entries : List String) (hne : entries ≠ [])
    (hfree : ∀ e ∈ entries, ',' ∉ e.data) :
    stringsSplit (stringsJoin entries ",") ',' = entries := by
  induction entries with
  | nil => exact absurd rfl hne
  | cons a rest ih =>
    have ha : ',' ∉ a.data := hfree a (by simp)
    cases rest with
    | nil => simp [stringsJoin, stringsSplit, splitChars_no_sep ',' a.data ha]
    | cons b rest2 =>
      have hrec := ih (by simp) (fun e he => hfree e (by simp [he]))
      have hd : (stringsJoin (a :: b :: rest2) ",").data
          = a.data ++ ',' :: (stringsJoin (b :: rest2) ",").data := by
        simp [stringsJoin, String.data_append]
      simp only [stringsSplit] at hrec ⊢
      rw [hd, splitChars_append_sep ',' _ a.data ha]
      simp [hrec]

/-- The text of a joined list starts with the text of its first element. -/
theorem stringsJoin_head (h : String) (tl : List String) (sep : String) :
    ∃ r, (stringsJoin (h :: tl) sep).data = h.data ++ r := by
  cases tl with
  | nil => exact ⟨[], by simp [stringsJoin]⟩
  | cons b rest =>
    exact ⟨sep.data ++ (stringsJoin (b :: rest) sep).data, by
      simp [stringsJoin, String.data_append]⟩

/-- A split never yields the empty list: a configured repository list has at least one
entry. -/
theorem stringsSplit_ne_nil (s : String) (sep : Char) : stringsSplit s sep ≠ [] := by
  have h : ∀ cs : List Char, splitChars sep cs ≠ [] := by
    intro cs
    induction cs with
    | nil => simp [splitChars]
    | cons c cs ih =>
      unfold splitChars
      by_cases hc : c = sep
      · simp [hc]
      · simp only [hc, if_false]
        split <;> simp
  simpa [stringsSplit] using h s.data

/-! ## Commit resolution -/

theorem commitsLoop_eq : ∀ (commits : List RepositoryCommit) (i : Nat) (msg : List String),
    i ≤ 2 → commitsLoop i commits msg = msg ++ (commits.take (3 - i)).map commitLine := by
  intro commits
  induction commits with
  | nil => intro i msg _; simp [commitsLoop]
  | cons c cs ih =>
    intro i msg hi
    obtain ⟨k, hk⟩ : ∃ k, 3 - i = k + 1 := ⟨2 - i, by omega⟩
    unfold commitsLoop
    by_cases h2 : i = 2
    · have hk0 : k = 0 := by omega
      subst hk0
      simp [h2]
    · have hk1 : 3 - (i + 1) = k := by omega
      simp [h2, hk, ih (i + 1) (msg ++ [commitLine c]) (by omega), hk1]

/-- When resolution returns an error, the message is empty. -/
theorem reposLoop_error_msg (p : Plugin) : ∀ (repos : List String) (msg : List String)
    (m e : String), reposLoop p repos msg = .ok (m, some e) → m = "" := by
  intro repos
  induction repos with
  | nil =>
    intro msg m e h
    simp [reposLoop] at h
  | cons repo rest ih =>
    intro msg m e h
    unfold reposLoop at h
    split at h
    · rename_i owner name _ _
      cases hl : p.github.ListCommits owner name with
      | error err =>
        simp only [hl, Outcome.ok.injEq, Prod.mk.injEq] at h
        exact h.1.symm
      | ok masterCommits =>
        simp only [hl] at h
        exact ih _ m e h
    · cases h

/-- When resolution succeeds, the message is the join of a list that starts with the lines
already collected. -/
theorem reposLoop_ok_msg (p : Plugin) : ∀ (repos : List String) (msg : List String)
    (m : String), reposLoop p repos msg = .ok (m, none) →
    ∃ tl, m = stringsJoin (msg ++ tl) "\n" := by
  intro repos
  induction repos with
  | nil =>
    intro msg m h
    simp only [reposLoop, Outcome.ok.injEq, Prod.mk.injEq, and_true] at h
    exact ⟨[], by simp [h]⟩
  | cons repo rest ih =>
    intro msg m h
    unfold reposLoop at h
    split at h
    · rename_i owner name _ _
      cases hl : p.github.ListCommits owner name with
      | error err => simp [hl] at h
      | ok masterCommits =>
        simp only [hl] at h
        obtain ⟨tl, htl⟩ := ih _ m h
        rw [commitsLoop_eq _ 0 _ (by omega)] at htl
        exact ⟨_, by rw [htl, List.append_assoc, List.append_assoc]⟩
    · cases h

/-- An empty repository setting is the single entry `""`, which has no slash: indexing
`repoSplit[1]` panics. -/
theorem GetLast3Commiters_empty_config :
    GetLast3Commiters (pluginWith "" oneCommitGitHub) = .panic := by
  decide

/-- With well-formed entries whose fetches all succeed, the loop appends to the collected
lines one block per repository and joins them. -/
theorem reposLoop_all_ok (p : Plugin) (commitsOf : String × String → List RepositoryCommit) :
    ∀ (repos : List (String × String)) (msg : List String),
      (∀ r ∈ repos, '/' ∉ r.1.data ∧ '/' ∉ r.2.data) →
      (∀ r ∈ repos, p.github.ListCommits r.1 r.2 = .ok (commitsOf r)) →
      reposLoop p (repos.map fun r => r.1 ++ "/" ++ r.2) msg
        = .ok (stringsJoin (msg ++ repos.flatMap fun r =>
            ("**Repository**: `" ++ (r.1 ++ "/" ++ r.2) ++ "`")
              :: ((commitsOf r).take 3).map commitLine) "\n", none) := by
  intro repos
  induction repos with
  | nil => intro msg _ _; simp [reposLoop]
  | cons r rest ih =>
    intro msg hwf hok
    have hsplit := stringsSplit_entry r.1 r.2 (hwf r (by simp)).1 (hwf r (by simp)).2
    have hr := hok r (by simp)
    simp only [List.map_cons, reposLoop, hsplit, hr]
    rw [ih _ (fun r1 h1 => hwf r1 (by simp [h1])) (fun r1 h1 => hok r1 (by simp [h1])),
      commitsLoop_eq _ 0 _ (by omega)]
    simp [List.flatMap_cons]

/-- With well-formed entries one of whose fetches fails, the loop returns the empty message
and an error. -/
theorem reposLoop_some_error (p : Plugin) :
    ∀ (repos : List (String × String)) (msg : List String),
      (∀ r ∈ repos, '/' ∉ r.1.data ∧ '/' ∉ r.2.data) →
      (∃ r ∈ repos, ∃ e, p.github.ListCommits r.1 r.2 = .error e) →
      ∃ err, reposLoop p (repos.map fun r => r.1 ++ "/" ++ r.2) msg = .ok ("", some err) := by
  intro repos
  induction repos with
  | nil =>
    intro msg _ h
    obtain ⟨r, hr, -⟩ := h
    cases hr
  | cons r rest ih =>
    intro msg hwf hfail
    have hsplit := stringsSplit_entry r.1 r.2 (hwf r (by simp)).1 (hwf r (by simp)).2
    cases hr : p.github.ListCommits r.1 r.2 with
    | error e => exact ⟨commitsError e, by simp only [List.map_cons, reposLoop, hsplit, hr]⟩
    | ok cs =>
      have hrest : ∃ r1 ∈ rest, ∃ e, p.github.ListCommits r1.1 r1.2 = .error e := by
        obtain ⟨r1, hmem, e, he⟩ := hfail
        rcases List.mem_cons.1 hmem with h1 | h1
        · subst h1
          rw [hr] at he
          cases he
        · exact ⟨r1, h1, e, he⟩
      obtain ⟨err, herr⟩ := ih (commitsLoop 0 cs
        (msg ++ ["**Repository**: `" ++ (r.1 ++ "/" ++ r.2) ++ "`"]))
        (fun r1 h1 => hwf r1 (by simp [h1])) hrest
      exact ⟨err, by simp only [List.map_cons, reposLoop, hsplit, hr, herr]⟩

/-- C6: on the steady-state path with blame true the cycle posts through `steadyPost` with
the test lines of the latest build; for every sequence of test lines and every result of
commit resolution the post carries the fixed blame identity override and its message is the
joined test lines, a blank line and the commit text when there are test lines, the commit
text alone otherwise; the commit text is empty when resolution failed, the message is never
the apology text, and a failed resolution with no test lines gives an empty message. -/
theorem steady_post_message (p : Plugin) (commitsMsg : String) (err : Option String)
    (hres : GetLast3Commiters p = .ok (commitsMsg, err)) :
    (∀ (w : World) (testLines : List String),
        steadyPost p w testLines
          = (w.CreatePost
              { UserId := p.BotUserID, ChannelId := p.ChannelID,
                Message := specBody testLines commitsMsg,
                Props := [("override_username", BLAME_USERNAME),
                          ("override_icon_url", BLAME_ICON_URL), ("from_webhook", "true")] },
            .returned)
        ∧ specBody testLines commitsMsg ≠ apology)
    ∧ (err ≠ none → commitsMsg = "" ∧ specBody [] commitsMsg = "")
    ∧ (∀ (w w3 : World) (s : String) (lastBuild : Build) (buildIDs : List JobBuild)
        (last3Builds : List Bool),
        p.jenkins.Init = .ok () → p.jenkins.GetJob = .ok () → w.marker = some s →
        p.jenkins.GetLastBuild = .ok lastBuild →
        ¬ (s = Itoa lastBuild.Number ∨ lastBuild.IsRunning = true) →
        p.jenkins.GetAllBuildIds = .ok buildIDs →
        steadyLoop p 0 buildIDs ((w.call .GetLastBuild).call .GetAllBuildIds) []
          = .next (w3, last3Builds) →
        blameOf last3Builds = true →
        checkJenkinsJob p w = steadyPost p (w3.call .GetResultSet) (msgTestResults lastBuild)) := by
  have hempty : err ≠ none → commitsMsg = "" := by
    intro he
    cases err with
    | none => exact absurd rfl he
    | some e => exact reposLoop_error_msg p _ _ commitsMsg e hres
  refine ⟨?_, ?_, ?_⟩
  · intro w testLines
    refine ⟨?_, ?_⟩
    · unfold steadyPost specBody
      simp only [hres]
      cases testLines with
      | nil => cases err <;> simp [World.CreatePost, blameProps]
      | cons l ls => cases err <;> simp [World.CreatePost, blameProps]
    · intro hbody
      cases testLines with
      | nil =>
        simp only [specBody, ne_eq, not_true_eq_false, if_false] at hbody
        cases err with
        | some e =>
          rw [hempty (by simp)] at hbody
          revert hbody
          decide
        | none =>
          obtain ⟨tl, htl⟩ := reposLoop_ok_msg p _ _ commitsMsg hres
          obtain ⟨r, hr⟩ := stringsJoin_head
            "**Last 3 Commiters for the following Repositories:**" tl "\n"
          have hdata := congrArg String.data hbody
          rw [htl] at hdata
          simp only [List.nil_append, List.singleton_append] at hdata
          rw [hr] at hdata
          revert hdata
          simp [apology]
      | cons l ls =>
        have hdata := congrArg String.data hbody
        have hmem : '\n' ∈ (specBody (l :: ls) commitsMsg).data := by
          simp [specBody, String.data_append]
        rw [hdata] at hmem
        revert hmem
        decide
  · intro he
    have h := hempty he
    exact ⟨h, by simp [specBody, h]⟩
  · intro w w3 s lastBuild buildIDs last3Builds hInit hJob hm hlast hgo hIds hloop hblame
    rw [checkJenkinsJob_steady p w s hInit hJob hm,
      steadyPath_go p w s lastBuild buildIDs hlast hgo hIds, hloop]
    simp only [hblame, if_true]

/-- C6 witness: Marker 104, builds 105, 104, 103 failed, no test report and a failing commit
fetch: the post carries the identity override and an empty message. -/
theorem steady_post_message_witness :
    (checkJenkinsJob (pluginWith "org/app" failingGitHub) (worldWithMarker "104")).1.posts
      = [{ UserId := "bot", ChannelId := "town", Message := "",
           Props := [("override_username", "Burnning Jenkins"),
                     ("override_icon_url", BLAME_ICON_URL), ("from_webhook", "true")] }] := by
  have h := steady_post_message (pluginWith "org/app" failingGitHub) ""
    (some (commitsError "unreachable")) (by decide)
  have hcycle := h.2.2 (worldWithMarker "104")
    (((((worldWithMarker "104").call .GetLastBuild).call .GetAllBuildIds).call
      (.GetBuild 105)).KVSet JENKINS_LASTBUILD_KEY "105" |>.call (.GetBuild 104) |>.call
      (.GetBuild 103))
    "104" (mkBuild 105 false false) [⟨105, ""⟩, ⟨104, ""⟩, ⟨103, ""⟩, ⟨102, ""⟩]
    [false, false, false] rfl rfl (by decide) rfl (by decide) rfl rfl (by decide)
  rw [hcycle, (h.1 _ _).1]
  decide

/-- C7: for a non-empty configured list of well-formed `owner/name` entries,
`GetLast3Commiters` returns an error together with the empty message exactly when the commit
fetch of some repository fails; when every fetch succeeds it returns, joined by newlines, the
header line and then for each repository in configuration order its repository line followed
by one commit line for each of its first `min 3 n` commits in provider order. -/
theorem GetLast3Commiters_all_or_nothing (p : Plugin) (repos : List (String × String))
    (hne : repos ≠ [])
    (hwf : ∀ r ∈ repos,
      ',' ∉ r.1.data ∧ '/' ∉ r.1.data ∧ ',' ∉ r.2.data ∧ '/' ∉ r.2.data)
    (hcfg : p.GitHubRepositories = stringsJoin (repos.map fun r => r.1 ++ "/" ++ r.2) ",") :
    ((∃ r ∈ repos, ∃ e, p.github.ListCommits r.1 r.2 = .error e)
        ↔ ∃ err, GetLast3Commiters p = .ok ("", some err))
    ∧ (∀ m err, GetLast3Commiters p = .ok (m, some err) → m = "")
    ∧ ∀ commitsOf : String × String → List RepositoryCommit,
        (∀ r ∈ repos, p.github.ListCommits r.1 r.2 = .ok (commitsOf r)) →
        GetLast3Commiters p
          = .ok (stringsJoin
              ("**Last 3 Commiters for the following Repositories:**"
                :: repos.flatMap fun r =>
                  ("**Repository**: `" ++ (r.1 ++ "/" ++ r.2) ++ "`")
                    :: ((commitsOf r).take 3).map fun c =>
                        "1. @" ++ c.AuthorLogin ++ " - `SHA`:[" ++ c.SHA ++ "](" ++ c.HTMLURL
                          ++ ")") "\n",
            none) := by
  have hsplit : stringsSplit p.GitHubRepositories ','
      = repos.map fun r => r.1 ++ "/" ++ r.2 := by
    rw [hcfg]
    apply stringsSplit_join
    · simpa using hne
    · intro e he
      obtain ⟨r, hr, rfl⟩ := List.mem_map.1 he
      obtain ⟨h1, -, h2, -⟩ := hwf r hr
      simp [String.data_append, h1, h2]
  have hwf2 : ∀ r ∈ repos, '/' ∉ r.1.data ∧ '/' ∉ r.2.data :=
    fun r hr => ⟨(hwf r hr).2.1, (hwf r hr).2.2.2⟩
  have hrun : GetLast3Commiters p
      = reposLoop p (repos.map fun r => r.1 ++ "/" ++ r.2)
          ["**Last 3 Commiters for the following Repositories:**"] := by
    simp [GetLast3Commiters, hsplit]
  have hall : ∀ commitsOf : String × String → List RepositoryCommit,
      (∀ r ∈ repos, p.github.ListCommits r.1 r.2 = .ok (commitsOf r)) →
      GetLast3Commiters p
        = .ok (stringsJoin
            ("**Last 3 Commiters for the following Repositories:**"
              :: repos.flatMap fun r =>
                ("**Repository**: `" ++ (r.1 ++ "/" ++ r.2) ++ "`")
                  :: ((commitsOf r).take 3).map commitLine) "\n",
          none) := by
    intro commitsOf hok
    rw [hrun, reposLoop_all_ok p commitsOf repos _ hwf2 hok]
    simp
  refine ⟨⟨?_, ?_⟩, ?_, ?_⟩
  · intro hfail
    rw [hrun]
    exact reposLoop_some_error p repos _ hwf2 hfail
  · rintro ⟨err, herr⟩
    by_contra hno
    have hok : ∀ r ∈ repos, p.github.ListCommits r.1 r.2
        = .ok (match p.github.ListCommits r.1 r.2 with
               | .ok cs => cs
               | .error _ => []) := by
      intro r hr
      cases hl : p.github.ListCommits r.1 r.2 with
      | ok cs => rfl
      | error e => exact absurd ⟨r, hr, e, hl⟩ hno
    have := hall (fun r => match p.github.ListCommits r.1 r.2 with
                           | .ok cs => cs
                           | .error _ => []) hok
    rw [this] at herr
    simp at herr
  · intro m err h
    rw [hrun] at h
    exact reposLoop_error_msg p _ _ m err h
  · intro commitsOf hok
    exact hall commitsOf hok

/-- C7 witness: `org/app` with four commits and `org/lib` with one. -/
theorem GetLast3Commiters_all_or_nothing_witness :
    GetLast3Commiters (pluginWith "org/app,org/lib" twoRepoGitHub)
      = .ok ("**Last 3 Commiters for the following Repositories:**\n**Repository**: `org/app`\n1. @ann - `SHA`:[a1](u1)\n1. @bob - `SHA`:[b2](u2)\n1. @cy - `SHA`:[c3](u3)\n**Repository**: `org/lib`\n1. @eve - `SHA`:[e5](u5)", none) := by
  have h := (GetLast3Commiters_all_or_nothing (pluginWith "org/app,org/lib" twoRepoGitHub)
    [("org", "app"), ("org", "lib")] (by decide) (by decide) (by decide)).2.2
    (fun r => if r.2 = "app" then
        [⟨"ann", "a1", "u1"⟩, ⟨"bob", "b2", "u2"⟩, ⟨"cy", "c3", "u3"⟩, ⟨"dee", "d4", "u4"⟩]
      else [⟨"eve", "e5", "u5"⟩])
    (by
      intro r hr
      simp only [List.mem_cons, List.mem_singleton, List.not_mem_nil, or_false] at hr
      rcases hr with rfl | rfl <;> rfl)
  rw [h]
  rfl

/-! ## Effects of a cycle on the store and the posts -/

theorem steadyLoop_zero_error (p : Plugin) (b : JobBuild) (rest : List JobBuild) (w : World)
    (acc : List Bool) (e : String) (hb : p.jenkins.GetBuild b.Number = .error e) :
    steadyLoop p 0 (b :: rest) w acc = .panic (w.call (.GetBuild b.Number)) := by
  unfold steadyLoop
  simp only [hb]

theorem steadyLoop_zero_running (p : Plugin) (b : JobBuild) (rest : List JobBuild) (w : World)
    (acc : List Bool) (job : Build) (hb : p.jenkins.GetBuild b.Number = .ok job)
    (hr : job.IsRunning = true) :
    steadyLoop p 0 (b :: rest) w acc = .ret (w.call (.GetBuild b.Number)) := by
  unfold steadyLoop
  simp [hb, hr]

theorem steadyLoop_zero_written (p : Plugin) (b : JobBuild) (rest : List JobBuild) (w : World)
    (acc : List Bool) (job : Build) (hb : p.jenkins.GetBuild b.Number = .ok job)
    (hr : job.IsRunning = false) :
    (steadyLoop p 0 (b :: rest) w acc).world.kv
      = (w.KVSet JENKINS_LASTBUILD_KEY (Itoa b.Number)).kv := by
  unfold steadyLoop
  simp [hb, hr, steadyLoop_kv, World.call, World.KVSet]

theorem steadyPost_effect (p : Plugin) (w : World) (testLines : List String) :
    (steadyPost p w testLines).1.kv = w.kv
    ∧ ((steadyPost p w testLines).1.posts = w.posts
      ∨ ∃ post, (steadyPost p w testLines).1.posts = w.posts ++ [post]) := by
  unfold steadyPost
  cases GetLast3Commiters p with
  | panic => exact ⟨rfl, Or.inl rfl⟩
  | ok r => exact ⟨rfl, Or.inr ⟨_, rfl⟩⟩

/-- Past the skip test with the list fetched, the steady-state path leaves the store as the
loop left it, and creates at most one post, only when the loop fell through. -/
theorem steadyPath_effect (p : Plugin) (w : World) (s : String) (lastBuild : Build)
    (buildIDs : List JobBuild)
    (hlast : p.jenkins.GetLastBuild = .ok lastBuild)
    (hgo : ¬ (s = Itoa lastBuild.Number ∨ lastBuild.IsRunning = true))
    (hIds : p.jenkins.GetAllBuildIds = .ok buildIDs) :
    (steadyPath p w s).1.kv
        = (steadyLoop p 0 buildIDs ((w.call .GetLastBuild).call .GetAllBuildIds) []).world.kv
    ∧ ((steadyPath p w s).1.posts = w.posts
      ∨ ∃ post w3 l,
          steadyLoop p 0 buildIDs ((w.call .GetLastBuild).call .GetAllBuildIds) []
            = .next (w3, l)
          ∧ (steadyPath p w s).1.posts = w.posts ++ [post]) := by
  have hposts := steadyLoop_posts p buildIDs 0 ((w.call .GetLastBuild).call .GetAllBuildIds) []
  rw [steadyPath_go p w s lastBuild buildIDs hlast hgo hIds]
  cases hl : steadyLoop p 0 buildIDs ((w.call .GetLastBuild).call .GetAllBuildIds) [] with
  | panic w3 =>
    rw [hl] at hposts
    exact ⟨rfl, Or.inl hposts⟩
  | ret w3 =>
    rw [hl] at hposts
    exact ⟨rfl, Or.inl hposts⟩
  | next r =>
    obtain ⟨w3, l⟩ := r
    rw [hl] at hposts
    have hp3 : w3.posts = w.posts := hposts
    by_cases hb : blameOf l = true
    · simp only [hb, if_true]
      obtain ⟨hkv, hpost⟩ := steadyPost_effect p (w3.call .GetResultSet) (msgTestResults lastBuild)
      refine ⟨hkv, ?_⟩
      rcases hpost with h | ⟨post, h⟩
      · exact Or.inl (h.trans hp3)
      · refine Or.inr ⟨post, w3, l, rfl, ?_⟩
        rw [h]
        simp [World.call, hp3]
    · simp only [hb]
      exact ⟨rfl, Or.inl hp3⟩

/-- The steady-state path when the latest-build fetch or the list fetch fails. -/
theorem steadyPath_fetch_error (p : Plugin) (w : World) (s : String) :
    (∀ e, p.jenkins.GetLastBuild = .error e →
        steadyPath p w s = (w.call .GetLastBuild, .returned))
    ∧ (∀ e lastBuild, p.jenkins.GetLastBuild = .ok lastBuild →
        ¬ (s = Itoa lastBuild.Number ∨ lastBuild.IsRunning = true) →
        p.jenkins.GetAllBuildIds = .error e →
        steadyPath p w s = ((w.call .GetLastBuild).call .GetAllBuildIds, .returned)) := by
  refine ⟨?_, ?_⟩
  · intro e he
    unfold steadyPath
    simp only [he]
  · intro e lastBuild hlast hgo he
    unfold steadyPath
    simp only [hlast, he]
    rw [if_neg hgo]

theorem bootstrapPath_posts (p : Plugin) (w : World) :
    (bootstrapPath p w).1.posts = w.posts
    ∨ ∃ post, (bootstrapPath p w).1.posts = w.posts ++ [post] := by
  cases hIds : p.jenkins.GetAllBuildIds with
  | error e =>
    left
    unfold bootstrapPath
    simp only [hIds]
    rfl
  | ok buildIDs =>
    have hposts := bootstrapLoop_posts p buildIDs 0 (w.call .GetAllBuildIds) []
    rw [bootstrapPath_go p w buildIDs hIds]
    cases hl : bootstrapLoop p 0 buildIDs (w.call .GetAllBuildIds) [] with
    | panic w2 =>
      rw [hl] at hposts
      exact Or.inl hposts
    | ret w2 =>
      rw [hl] at hposts
      exact Or.inl hposts
    | next r =>
      obtain ⟨w2, l⟩ := r
      rw [hl] at hposts
      have hp2 : w2.posts = w.posts := hposts
      by_cases hb : blameOf l = true
      · simp only [hb, if_true]
        exact Or.inr ⟨bootstrapPost p, by simp [World.CreatePost, hp2]⟩
      · simp only [hb]
        exact Or.inl hp2

theorem steadyPath_posts (p : Plugin) (w : World) (s : String) :
    (steadyPath p w s).1.posts = w.posts
    ∨ ∃ post, (steadyPath p w s).1.posts = w.posts ++ [post] := by
  cases hlast : p.jenkins.GetLastBuild with
  | error e =>
    rw [(steadyPath_fetch_error p w s).1 e hlast]
    exact Or.inl rfl
  | ok lastBuild =>
    by_cases hskip : s = Itoa lastBuild.Number ∨ lastBuild.IsRunning = true
    · rw [steadyPath_skip p w s lastBuild hlast hskip]
      exact Or.inl rfl
    · cases hIds : p.jenkins.GetAllBuildIds with
      | error e =>
        rw [(steadyPath_fetch_error p w s).2 e lastBuild hlast hskip hIds]
        exact Or.inl rfl
      | ok buildIDs =>
        rcases (steadyPath_effect p w s lastBuild buildIDs hlast hskip hIds).2 with
          h | ⟨post, -, -, -, h⟩
        · exact Or.inl h
        · exact Or.inr ⟨post, h⟩

/-- A cycle creates at most one post and removes none. -/
theorem checkJenkinsJob_posts (p : Plugin) (w : World) :
    (checkJenkinsJob p w).1.posts = w.posts
    ∨ ∃ post, (checkJenkinsJob p w).1.posts = w.posts ++ [post] := by
  rcases checkJenkinsJob_cases p w with h | ⟨-, h⟩ | ⟨s, -, h⟩
  · rw [h]
    exact Or.inl rfl
  · rw [h]
    exact bootstrapPath_posts p w
  · rw [h]
    exact steadyPath_posts p w s

/-! ## Two cycles in a row -/

/-- With a non-empty list, a cycle that creates a post leaves the Marker at the first
identifier. -/
theorem posted_cycle_sets_marker (p : Plugin) (w : World) (b : JobBuild)
    (rest : List JobBuild) (hIds : p.jenkins.GetAllBuildIds = .ok (b :: rest)) :
    (checkJenkinsJob p w).1.posts = w.posts
    ∨ ((∃ post, (checkJenkinsJob p w).1.posts = w.posts ++ [post])
      ∧ (checkJenkinsJob p w).1.marker = some (Itoa b.Number)) := by
  rcases checkJenkinsJob_cases p w with h | ⟨-, h⟩ | ⟨s, -, h⟩
  · rw [h]
    exact Or.inl rfl
  · rw [h]
    have hmark : (bootstrapPath p w).1.marker = some (Itoa b.Number) := by
      show (bootstrapPath p w).1.kv JENKINS_LASTBUILD_KEY = some (Itoa b.Number)
      rw [bootstrapPath_kv p w (b :: rest) hIds, bootstrapLoop_kv_zero]
      simp [World.KVSet]
    rcases bootstrapPath_posts p w with hp | hp
    · exact Or.inl hp
    · exact Or.inr ⟨hp, hmark⟩
  · rw [h]
    cases hlast : p.jenkins.GetLastBuild with
    | error e =>
      rw [(steadyPath_fetch_error p w s).1 e hlast]
      exact Or.inl rfl
    | ok lastBuild =>
      by_cases hskip : s = Itoa lastBuild.Number ∨ lastBuild.IsRunning = true
      · rw [steadyPath_skip p w s lastBuild hlast hskip]
        exact Or.inl rfl
      · obtain ⟨hkv, hp⟩ := steadyPath_effect p w s lastBuild (b :: rest) hlast hskip hIds
        rcases hp with hp | ⟨post, w3, l, hl, hp⟩
        · exact Or.inl hp
        · refine Or.inr ⟨⟨post, hp⟩, ?_⟩
          show (steadyPath p w s).1.kv JENKINS_LASTBUILD_KEY = some (Itoa b.Number)
          rw [hkv]
          cases hb : p.jenkins.GetBuild b.Number with
          | error e =>
            rw [steadyLoop_zero_error p b rest _ _ e hb] at hl
            cases hl
          | ok job =>
            cases hr : job.IsRunning with
            | true =>
              rw [steadyLoop_zero_running p b rest _ _ job hb hr] at hl
              cases hl
            | false =>
              rw [steadyLoop_zero_written p b rest _ _ job hb hr]
              simp [World.KVSet]

/-- C8: with the same identifier list, latest build and build outcomes seen by both runs, the
list non-empty and the latest build being its first identifier, two cycles in a row create at
most one post between them, whatever the initial Marker. -/
theorem two_cycles_at_most_one_post (p : Plugin) (w : World) (b : JobBuild)
    (rest : List JobBuild) (lastBuild : Build)
    (hIds : p.jenkins.GetAllBuildIds = .ok (b :: rest))
    (hlast : p.jenkins.GetLastBuild = .ok lastBuild)
    (hnewest : lastBuild.Number = b.Number) :
    (checkJenkinsJob p (checkJenkinsJob p w).1).1.posts = w.posts
    ∨ ∃ post, (checkJenkinsJob p (checkJenkinsJob p w).1).1.posts = w.posts ++ [post] := by
  rcases posted_cycle_sets_marker p w b rest hIds with h1 | ⟨⟨post, h1⟩, hmark⟩
  · rcases checkJenkinsJob_posts p (checkJenkinsJob p w).1 with h2 | ⟨post, h2⟩
    · exact Or.inl (h2.trans h1)
    · exact Or.inr ⟨post, by rw [h2, h1]⟩
  · refine Or.inr ⟨post, ?_⟩
    rcases checkJenkinsJob_cases p (checkJenkinsJob p w).1 with h | ⟨hnone, -⟩ | ⟨s, hs, h⟩
    · rw [h]
      exact h1
    · rw [hmark] at hnone
      cases hnone
    · rw [hmark] at hs
      cases hs
      rw [h, steadyPath_skip p _ _ lastBuild hlast (Or.inl (by rw [hnewest]))]
      exact h1

/-- C8 witness: no Marker and the builds 105, 104, 103 failed: the first cycle posts, the
second does not. -/
theorem two_cycles_at_most_one_post_witness :
    (checkJenkinsJob (pluginOf (fourBuilds fun _ => false))
      (checkJenkinsJob (pluginOf (fourBuilds fun _ => false)) freshWorld).1).1.posts
      = [bootstrapPost (pluginOf (fourBuilds fun _ => false))] := by
  rcases two_cycles_at_most_one_post (pluginOf (fourBuilds fun _ => false)) freshWorld
    ⟨105, ""⟩ [⟨104, ""⟩, ⟨103, ""⟩, ⟨102, ""⟩] (mkBuild 105 false false) rfl rfl rfl with h | ⟨_, h⟩
  · revert h
    decide
  · decide

/-- Outside the premise of a newest identifier: with an empty list the bootstrap path
writes no Marker and blames, so each cycle posts again. -/
theorem empty_history_posts_every_cycle :
    (checkJenkinsJob (pluginOf emptyHistory) freshWorld).1.marker = none
    ∧ (checkJenkinsJob (pluginOf emptyHistory)
        (checkJenkinsJob (pluginOf emptyHistory) freshWorld).1).1.posts
      = [bootstrapPost (pluginOf emptyHistory), bootstrapPost (pluginOf emptyHistory)] := by
  decide

/-! ## The Marker across a cycle -/

/-- What the steady-state path does to the store: it leaves it as it was, or the first listed
build was fetched and found not running, the latest build was not running and its number was
not the stored one, and the first identifier is written under the marker key. -/
theorem steadyPath_store (p : Plugin) (w : World) (s : String) :
    (steadyPath p w s).1.kv = w.kv
    ∨ ∃ b rest job lastBuild,
        p.jenkins.GetAllBuildIds = .ok (b :: rest)
        ∧ p.jenkins.GetBuild b.Number = .ok job ∧ job.IsRunning = false
        ∧ p.jenkins.GetLastBuild = .ok lastBuild
        ∧ s ≠ Itoa lastBuild.Number ∧ lastBuild.IsRunning = false
        ∧ (steadyPath p w s).1.kv = (w.KVSet JENKINS_LASTBUILD_KEY (Itoa b.Number)).kv := by
  cases hlast : p.jenkins.GetLastBuild with
  | error e =>
    rw [(steadyPath_fetch_error p w s).1 e hlast]
    exact Or.inl rfl
  | ok lastBuild =>
    by_cases hskip : s = Itoa lastBuild.Number ∨ lastBuild.IsRunning = true
    · rw [steadyPath_skip p w s lastBuild hlast hskip]
      exact Or.inl rfl
    · have hne : s ≠ Itoa lastBuild.Number := fun h => hskip (Or.inl h)
      have hnr : lastBuild.IsRunning = false := by
        cases hr : lastBuild.IsRunning with
        | true => exact absurd (Or.inr hr) hskip
        | false => rfl
      cases hIds : p.jenkins.GetAllBuildIds with
      | error e =>
        rw [(steadyPath_fetch_error p w s).2 e lastBuild hlast hskip hIds]
        exact Or.inl rfl
      | ok buildIDs =>
        rw [(steadyPath_effect p w s lastBuild buildIDs hlast hskip hIds).1]
        cases buildIDs with
        | nil => exact Or.inl rfl
        | cons b rest =>
          cases hb : p.jenkins.GetBuild b.Number with
          | error e =>
            rw [steadyLoop_zero_error p b rest _ _ e hb]
            exact Or.inl rfl
          | ok job =>
            cases hr : job.IsRunning with
            | true =>
              rw [steadyLoop_zero_running p b rest _ _ job hb hr]
              exact Or.inl rfl
            | false =>
              refine Or.inr ⟨b, rest, job, lastBuild, rfl, hb, hr, rfl, hne, hnr, ?_⟩
              rw [steadyLoop_zero_written p b rest _ _ job hb hr]
              rfl

/-- C9 (as amended): a cycle that starts with the Marker at build number `m` ends with the
Marker still `m`, or with the number of the first listed identifier, whose build was fetched
and is not running, the latest build being not running and of a number other than `m`; the
new number is compared with `m` for equality only, so it is greater than `m` when the first
listed identifier is. -/
theorem marker_after_cycle (p : Plugin) (w : World) (m : Int)
    (hm : w.marker = some (Itoa m)) :
    (checkJenkinsJob p w).1.marker = some (Itoa m)
    ∨ ∃ b rest job lastBuild,
        p.jenkins.GetAllBuildIds = .ok (b :: rest)
        ∧ p.jenkins.GetBuild b.Number = .ok job ∧ job.IsRunning = false
        ∧ p.jenkins.GetLastBuild = .ok lastBuild
        ∧ lastBuild.Number ≠ m ∧ lastBuild.IsRunning = false
        ∧ (checkJenkinsJob p w).1.marker = some (Itoa b.Number)
        ∧ (m < b.Number → ∃ n, m < n ∧ (checkJenkinsJob p w).1.marker = some (Itoa n)) := by
  rcases checkJenkinsJob_cases p w with h | ⟨hnone, -⟩ | ⟨s, hs, h⟩
  · rw [h]
    exact Or.inl hm
  · rw [hm] at hnone
    cases hnone
  · have hkey := steadyPath_store p w s
    rw [← h] at hkey
    rcases hkey with hkv | ⟨b, rest, job, lastBuild, h1, h2, h3, h4, h5, h6, hkv⟩
    · left
      show (checkJenkinsJob p w).1.kv JENKINS_LASTBUILD_KEY = some (Itoa m)
      rw [hkv]
      exact hm
    · right
      have hmark : (checkJenkinsJob p w).1.marker = some (Itoa b.Number) := by
        show (checkJenkinsJob p w).1.kv JENKINS_LASTBUILD_KEY = some (Itoa b.Number)
        rw [hkv]
        simp [World.KVSet]
      have hsm : s = Itoa m := by
        rw [hm] at hs
        exact (Option.some.inj hs).symm
      refine ⟨b, rest, job, lastBuild, h1, h2, h3, h4, ?_, h6, hmark, ?_⟩
      · intro heq
        exact h5 (by rw [hsm, heq])
      · intro hlt
        exact ⟨b.Number, hlt, hmark⟩

/-- C9 witness: Marker 105, latest build 106, list 106, 105, 104, all finished: the Marker
goes to 106. -/
theorem marker_after_cycle_witness :
    ∃ n : Int, 105 < n ∧
      (checkJenkinsJob (pluginOf finishedNewest) (worldWithMarker (Itoa 105))).1.marker
        = some (Itoa n) := by
  have hreal : (checkJenkinsJob (pluginOf finishedNewest) (worldWithMarker (Itoa 105))).1.marker
      = some (Itoa 106) := by decide
  rcases marker_after_cycle (pluginOf finishedNewest) (worldWithMarker (Itoa 105)) 105
    (by decide) with h | ⟨b, rest, job, lb, -, -, -, -, -, -, hb, -⟩
  · rw [hreal] at h
    have := Itoa_injective (Option.some.inj h)
    omega
  · exact ⟨b.Number, by
      rw [hreal] at hb
      have := Itoa_injective (Option.some.inj hb)
      omega, hb⟩

/-- C9 counterexample: with Marker 105, latest build 104 and list 104, 103 (all finished), the
cycle rewrites the Marker to 104, which is neither 105 nor a greater number. -/
theorem marker_can_go_down :
    ¬ ((checkJenkinsJob (pluginOf renumbered) (worldWithMarker (Itoa 105))).1.marker
          = some (Itoa 105)
        ∨ ∃ n : Int, 105 < n ∧
            (checkJenkinsJob (pluginOf renumbered) (worldWithMarker (Itoa 105))).1.marker
              = some (Itoa n)) := by
  have h : (checkJenkinsJob (pluginOf renumbered) (worldWithMarker (Itoa 105))).1.marker
      = some (Itoa 104) := by decide
  rw [h]
  rintro (h1 | ⟨n, hn, h2⟩)
  · have := Itoa_injective (Option.some.inj h1)
    omega
  · have := Itoa_injective (Option.some.inj h2)
    omega

/-! ## Failing provider calls -/

/-- When the fetch of one of the sampled builds fails, the bootstrap loop does not fall
through. -/
theorem bootstrapLoop_fetch_error (p : Plugin) :
    ∀ (ids : List JobBuild) (i : Nat) (w : World) (acc : List Bool), i ≤ 2 →
      (∃ c ∈ ids.take (3 - i), ∃ e, p.jenkins.GetBuild c.Number = .error e) →
      ∀ r, bootstrapLoop p i ids w acc ≠ .next r := by
  intro ids
  induction ids with
  | nil =>
    intro i w acc _ h
    obtain ⟨c, hc, -⟩ := h
    simp at hc
  | cons b rest ih =>
    intro i w acc hi hfail r
    obtain ⟨k, hk⟩ : ∃ k, 3 - i = k + 1 := ⟨2 - i, by omega⟩
    rw [hk] at hfail
    unfold bootstrapLoop
    cases hb : p.jenkins.GetBuild b.Number with
    | error e => simp
    | ok job =>
      have htail : ∃ c ∈ rest.take k, ∃ e, p.jenkins.GetBuild c.Number = .error e := by
        obtain ⟨c, hc, e, he⟩ := hfail
        rw [List.take_succ_cons] at hc
        rcases List.mem_cons.1 hc with h1 | h1
        · subst h1
          rw [hb] at he
          cases he
        · exact ⟨c, h1, e, he⟩
      by_cases h2 : i = 2
      · have hk0 : k = 0 := by omega
        subst hk0
        obtain ⟨c, hc, -⟩ := htail
        simp at hc
      · have hk1 : 3 - (i + 1) = k := by omega
        simp only [h2, if_false]
        exact ih (i + 1) _ _ (by omega) (by rw [hk1]; exact htail) r

/-- When the fetch of one of the sampled builds fails, the steady-state loop does not fall
through. -/
theorem steadyLoop_fetch_error (p : Plugin) :
    ∀ (ids : List JobBuild) (i : Nat) (w : World) (acc : List Bool), i ≤ 2 →
      (∃ c ∈ ids.take (3 - i), ∃ e, p.jenkins.GetBuild c.Number = .error e) →
      ∀ r, steadyLoop p i ids w acc ≠ .next r := by
  intro ids
  induction ids with
  | nil =>
    intro i w acc _ h
    obtain ⟨c, hc, -⟩ := h
    simp at hc
  | cons b rest ih =>
    intro i w acc hi hfail r
    obtain ⟨k, hk⟩ : ∃ k, 3 - i = k + 1 := ⟨2 - i, by omega⟩
    rw [hk] at hfail
    unfold steadyLoop
    cases hb : p.jenkins.GetBuild b.Number with
    | error e => simp
    | ok job =>
      have htail : ∃ c ∈ rest.take k, ∃ e, p.jenkins.GetBuild c.Number = .error e := by
        obtain ⟨c, hc, e, he⟩ := hfail
        rw [List.take_succ_cons] at hc
        rcases List.mem_cons.1 hc with h1 | h1
        · subst h1
          rw [hb] at he
          cases he
        · exact ⟨c, h1, e, he⟩
      by_cases hrun : i = 0 ∧ job.IsRunning = true
      · simp [hrun]
      · by_cases h2 : i = 2
        · have hk0 : k = 0 := by omega
          subst hk0
          obtain ⟨c, hc, -⟩ := htail
          simp at hc
        · have hk1 : 3 - (i + 1) = k := by omega
          simp only [hrun, h2, if_false]
          exact ih (i + 1) _ _ (by omega) (by rw [hk1]; exact htail) r

/-- C10 (as amended): a failed latest-build fetch and a failed steady-state list fetch end the
cycle with a return, the Marker as at the start and no post created. When the fetch of a
sampled build fails no post is created; the Marker is as at the start when the failing fetch
is that of the first identifier on the steady-state path, while on the bootstrap path, and on
the steady-state path once the first build was fetched and found not running, the Marker
holds the first identifier's number, persisted before the failing fetch. -/
theorem provider_failure_effects (p : Plugin) (w : World)
    (hInit : p.jenkins.Init = .ok ()) (hJob : p.jenkins.GetJob = .ok ()) :
    (∀ s e, w.marker = some s → p.jenkins.GetLastBuild = .error e →
        (checkJenkinsJob p w).1.marker = w.marker ∧ (checkJenkinsJob p w).1.kv = w.kv
        ∧ (checkJenkinsJob p w).1.posts = w.posts ∧ (checkJenkinsJob p w).2 = .returned)
    ∧ (∀ s e lastBuild, w.marker = some s → p.jenkins.GetLastBuild = .ok lastBuild →
        ¬ (s = Itoa lastBuild.Number ∨ lastBuild.IsRunning = true) →
        p.jenkins.GetAllBuildIds = .error e →
        (checkJenkinsJob p w).1.marker = w.marker ∧ (checkJenkinsJob p w).1.kv = w.kv
        ∧ (checkJenkinsJob p w).1.posts = w.posts ∧ (checkJenkinsJob p w).2 = .returned)
    ∧ (∀ buildIDs, p.jenkins.GetAllBuildIds = .ok buildIDs →
        (∃ c ∈ sampled buildIDs, ∃ e, p.jenkins.GetBuild c.Number = .error e) →
        (checkJenkinsJob p w).1.posts = w.posts
        ∧ (w.marker = none → ∀ b rest, buildIDs = b :: rest →
            (checkJenkinsJob p w).1.marker = some (Itoa b.Number))
        ∧ (∀ s b rest e, w.marker = some s → buildIDs = b :: rest →
            p.jenkins.GetBuild b.Number = .error e →
            (checkJenkinsJob p w).1.marker = some s)
        ∧ (∀ s b rest job lastBuild, w.marker = some s → buildIDs = b :: rest →
            p.jenkins.GetBuild b.Number = .ok job → job.IsRunning = false →
            p.jenkins.GetLastBuild = .ok lastBuild →
            ¬ (s = Itoa lastBuild.Number ∨ lastBuild.IsRunning = true) →
            (checkJenkinsJob p w).1.marker = some (Itoa b.Number))) := by
  refine ⟨?_, ?_, ?_⟩
  · intro s e hm he
    rw [checkJenkinsJob_steady p w s hInit hJob hm, (steadyPath_fetch_error p w s).1 e he]
    exact ⟨rfl, rfl, rfl, rfl⟩
  · intro s e lastBuild hm hlast hgo he
    rw [checkJenkinsJob_steady p w s hInit hJob hm,
      (steadyPath_fetch_error p w s).2 e lastBuild hlast hgo he]
    exact ⟨rfl, rfl, rfl, rfl⟩
  · intro buildIDs hIds hfail
    have hfail3 : ∃ c ∈ buildIDs.take (3 - 0), ∃ e, p.jenkins.GetBuild c.Number = .error e := by
      simpa [sampled] using hfail
    refine ⟨?_, ?_, ?_, ?_⟩
    · rcases checkJenkinsJob_cases p w with h | ⟨-, h⟩ | ⟨s, -, h⟩
      · rw [h]
      · rw [h, bootstrapPath_go p w buildIDs hIds]
        have hposts := bootstrapLoop_posts p buildIDs 0 (w.call .GetAllBuildIds) []
        cases hl : bootstrapLoop p 0 buildIDs (w.call .GetAllBuildIds) [] with
        | panic w2 =>
          rw [hl] at hposts
          exact hposts
        | ret w2 =>
          rw [hl] at hposts
          exact hposts
        | next r => exact absurd hl (bootstrapLoop_fetch_error p buildIDs 0 _ _ (by omega) hfail3 r)
      · rw [h]
        cases hlast : p.jenkins.GetLastBuild with
        | error e =>
          rw [(steadyPath_fetch_error p w s).1 e hlast]
          rfl
        | ok lastBuild =>
          by_cases hskip : s = Itoa lastBuild.Number ∨ lastBuild.IsRunning = true
          · rw [steadyPath_skip p w s lastBuild hlast hskip]
            rfl
          · rcases (steadyPath_effect p w s lastBuild buildIDs hlast hskip hIds).2 with
              hp | ⟨post, w3, l, hl, -⟩
            · exact hp
            · exact absurd hl (steadyLoop_fetch_error p buildIDs 0 _ _ (by omega) hfail3 _)
    · intro hm b rest hcons
      subst hcons
      show (checkJenkinsJob p w).1.kv JENKINS_LASTBUILD_KEY = some (Itoa b.Number)
      rw [checkJenkinsJob_bootstrap p w hInit hJob hm, bootstrapPath_kv p w (b :: rest) hIds,
        bootstrapLoop_kv_zero]
      simp [World.KVSet]
    · intro s b rest e hm hcons hb
      subst hcons
      show (checkJenkinsJob p w).1.kv JENKINS_LASTBUILD_KEY = some s
      rw [checkJenkinsJob_steady p w s hInit hJob hm]
      rcases steadyPath_store p w s with hkv | ⟨b1, rest1, job, lb, h1, h2, -, -, -, -, -⟩
      · rw [hkv]
        exact hm
      · rw [hIds] at h1
        injection h1 with h1
        injection h1 with h1 _
        subst h1
        rw [hb] at h2
        cases h2
    · intro s b rest job lastBuild hm hcons hb hr hlast hgo
      subst hcons
      show (checkJenkinsJob p w).1.kv JENKINS_LASTBUILD_KEY = some (Itoa b.Number)
      rw [checkJenkinsJob_steady p w s hInit hJob hm,
        (steadyPath_effect p w s lastBuild (b :: rest) hlast hgo hIds).1,
        steadyLoop_zero_written p b rest _ _ job hb hr]
      simp [World.KVSet]

/-- C10 witness: no Marker, builds 105, 104, 103 listed and every per-build fetch failing: no
post is created and the Marker holds 105. -/
theorem provider_failure_effects_witness :
    (checkJenkinsJob (pluginOf unreachableBuilds) freshWorld).1.posts = []
    ∧ (checkJenkinsJob (pluginOf unreachableBuilds) freshWorld).1.marker = some (Itoa 105) := by
  have h := (provider_failure_effects (pluginOf unreachableBuilds) freshWorld rfl rfl).2.2
    [⟨105, ""⟩, ⟨104, ""⟩, ⟨103, ""⟩] rfl ⟨⟨105, ""⟩, by decide, "timeout", rfl⟩
  exact ⟨h.1, h.2.1 rfl ⟨105, ""⟩ [⟨104, ""⟩, ⟨103, ""⟩] rfl⟩

/-- C10 counterexample: on the bootstrap path the per-build fetch of build 105 fails, and the
cycle does not end with the Marker at its start value: it was absent and is now 105. -/
theorem failed_build_fetch_moves_marker :
    (pluginOf unreachableBuilds).jenkins.GetBuild 105 = .error "timeout"
    ∧ freshWorld.marker = none
    ∧ ¬ ((checkJenkinsJob (pluginOf unreachableBuilds) freshWorld).1.marker = freshWorld.marker
        ∧ (checkJenkinsJob (pluginOf unreachableBuilds) freshWorld).1.posts
            = freshWorld.posts) := by
  refine ⟨rfl, rfl, ?_⟩
  decide

end BlameBuild
